import Mathlib

/-!
# ConstexprMandelbrot: escape-time evaluator, colour type and renderer

A shallow embedding of `Complex.h`, `Color.h`, `Mandelbrot.h` and the function
`ConvertImage` of `main.cpp`.

* `Real` (`long double` in the source) is taken as exact rational arithmetic.
  The evaluator is also given in the arithmetic of the type `long double`
  itself (`LongDouble`: the extended format, significand of 64 bits, every
  operation rounded to nearest, ties to even), for the behaviour that depends
  on the rounding.
* `size_t` values are natural numbers. The counter `i` of the evaluator runs
  from `0` to at most `maxIterations`. The counters `x` and `y` of `Render`
  are `int`: an increment past `INT_MAX` is undefined in the source, and
  `Render` has no value (`none`) then.
* The sample coordinates of `Render` are sums evaluated in `double`; they are
  rounded as the IEEE format with a significand of 53 bits has it.
* A C++ reference to a `Complex<T>` object is a location in a `Store`, so that
  a call such as `z *= z`, where both operands are the same object, is
  expressed as it is in the source.
-/

namespace ConstexprMandelbrot

/-! ## Complex.h -/

/-- The struct `Complex<T>`: members `real` and `imaginary`. -/
structure Complex (T : Type) where
  real : T
  imaginary : T
deriving DecidableEq, Repr

/-- Member `GetMagnitudeSquared() const`:
`(real * real) + (imaginary * imaginary)`. -/
def Complex.GetMagnitudeSquared {T : Type} [Add T] [Mul T] (self : Complex T) : T :=
  (self.real * self.real) + (self.imaginary * self.imaginary)

/-- Objects of type `Complex<T>` by location. A reference parameter of the
source is a location of the store. -/
abbrev Store (T : Type) := Nat → Complex T

/-- Assignment to the member `real` of the object at location `p`. -/
def Store.setReal {T : Type} (s : Store T) (p : Nat) (v : T) : Store T :=
  Function.update s p { s p with real := v }

/-- Assignment to the member `imaginary` of the object at location `p`. -/
def Store.setImaginary {T : Type} (s : Store T) (p : Nat) (v : T) : Store T :=
  Function.update s p { s p with imaginary := v }

/-- Member `operator += (const Complex<T> & complex)` called on the object at
`self` with the reference `complex`: two assignments in source order, each
reading the store as it is at that point. -/
def Complex.opAddAssign {T : Type} [Add T] (s : Store T) (self complex : Nat) : Store T :=
  let s := s.setReal self ((s self).real + (s complex).real)
  let s := s.setImaginary self ((s self).imaginary + (s complex).imaginary)
  s

/-- Member `operator *= (const Complex<T> & complex)` called on the object at
`self` with the reference `complex`: the four locals `real1`, `imaginary1`,
`real2`, `imaginary2` are read first, then `real` and `imaginary` are
assigned from them. `static_cast<T>(-1)` is `-1`. -/
def Complex.opMulAssign {T : Type} [Add T] [Mul T] [Neg T] [One T]
    (s : Store T) (self complex : Nat) : Store T :=
  let real1 := (s self).real
  let imaginary1 := (s self).imaginary
  let real2 := (s complex).real
  let imaginary2 := (s complex).imaginary
  let s := s.setReal self ((real1 * real2) + (imaginary1 * imaginary2 * (-1)))
  let s := s.setImaginary self ((real1 * imaginary2) + (real2 * imaginary1))
  s

/-! ## Mandelbrot.h: the evaluator -/

/-- The typedef `Real` (`long double`), in exact arithmetic. -/
abbrev Real := ℚ

/-- Static member `GetComplexFromPixel(Real x, Real y, size_t width, size_t height)`. -/
def GetComplexFromPixel (x y : Real) (width height : Nat) : Complex Real :=
  { real := ((x / (width : Real)) * 3) - 2
    imaginary := ((y / (height : Real)) * 2) - 1 }

/-- Location of the local `c` of `GetMandelbrotPointIterations`. -/
def cLoc : Nat := 0

/-- Location of the local `z` of `GetMandelbrotPointIterations`. -/
def zLoc : Nat := 1

/-- The `for` loop of `GetMandelbrotPointIterations` from the state `(i, s)`:
while `(i != maxIterations) && (z.GetMagnitudeSquared() < (1000.0 * 1000.0))`
run `z *= z; z += c;` and `i++`; the value is the final `i`. The first
argument bounds the number of trips still allowed; the loop makes at most
`maxIterations - i` of them (see `loop_fuel`). -/
def GetMandelbrotPointIterations.loop (maxIterations : Nat) :
    Nat → Nat → Store Real → Nat
  | 0, i, _ => i
  | fuel + 1, i, s =>
    if i ≠ maxIterations ∧ (s zLoc).GetMagnitudeSquared < 1000 * 1000 then
      GetMandelbrotPointIterations.loop maxIterations fuel (i + 1)
        (Complex.opAddAssign (Complex.opMulAssign s zLoc zLoc) zLoc cLoc)
    else i

/-- Static member `GetMandelbrotPointIterations(x, y, width, height, maxIterations)`:
`c` is initialised from the pixel, `z` is `{ 0.0, 0.0 }`, `i` is `0`. -/
def GetMandelbrotPointIterations (x y : Real) (width height maxIterations : Nat) : Nat :=
  let c : Complex Real := GetComplexFromPixel x y width height
  let z : Complex Real := { real := 0, imaginary := 0 }
  let s : Store Real := fun p => if p = cLoc then c else z
  GetMandelbrotPointIterations.loop maxIterations maxIterations 0 s

/-! ## Color.h -/

/-- The struct `Color<T, RedIndex, GreenIndex, BlueIndex, AlphaIndex>`: a
`std::array<T, 4>` whose four index parameters say where each channel is
kept. The index parameters are positions of the array, `0 .. 3`; they need
not be distinct. -/
@[ext]
structure Color (T : Type) (RedIndex GreenIndex BlueIndex AlphaIndex : Fin 4) where
  data : Fin 4 → T

instance Color.instDecidableEq {T : Type} [DecidableEq T] {R G B A : Fin 4} :
    DecidableEq (Color T R G B A) :=
  fun _ _ => decidable_of_iff _ Color.ext_iff.symm

section ColorMembers

variable {T : Type} {R G B A : Fin 4}

/-- Member `GetRed() const`: `(*this)[RedIndex]`. -/
def Color.GetRed (self : Color T R G B A) : T := self.data R

/-- Member `GetGreen() const`: `(*this)[GreenIndex]`. -/
def Color.GetGreen (self : Color T R G B A) : T := self.data G

/-- Member `GetBlue() const`: `(*this)[BlueIndex]`. -/
def Color.GetBlue (self : Color T R G B A) : T := self.data B

/-- Member `GetAlpha() const`: `(*this)[AlphaIndex]`. -/
def Color.GetAlpha (self : Color T R G B A) : T := self.data A

/-- Member `SetRed(T val)`: `(*this)[RedIndex] = val`. -/
def Color.SetRed (self : Color T R G B A) (val : T) : Color T R G B A :=
  ⟨Function.update self.data R val⟩

/-- Member `SetGreen(T val)`: `(*this)[GreenIndex] = val`. -/
def Color.SetGreen (self : Color T R G B A) (val : T) : Color T R G B A :=
  ⟨Function.update self.data G val⟩

/-- Member `SetBlue(T val)`: `(*this)[BlueIndex] = val`. -/
def Color.SetBlue (self : Color T R G B A) (val : T) : Color T R G B A :=
  ⟨Function.update self.data B val⟩

/-- Member `SetAlpha(T val)`: `(*this)[AlphaIndex] = val`. -/
def Color.SetAlpha (self : Color T R G B A) (val : T) : Color T R G B A :=
  ⟨Function.update self.data A val⟩

/-- The value-initialised object `Color<...> ret {}`: four zeros. -/
def Color.valueInit [Zero T] : Color T R G B A := ⟨fun _ => 0⟩

/-- Static member `Transparent()`: the aggregate `{ 0, 0, 0, 0 }`. -/
def Color.Transparent [Zero T] : Color T R G B A := ⟨![0, 0, 0, 0]⟩

/-- Static member `Black(T maxValue)`: four setter calls on a value-initialised
object, in source order. -/
def Color.Black [Zero T] (maxValue : T) : Color T R G B A :=
  let ret : Color T R G B A := Color.valueInit
  let ret := ret.SetRed 0
  let ret := ret.SetGreen 0
  let ret := ret.SetBlue 0
  let ret := ret.SetAlpha maxValue
  ret

/-- Member `Convert<ConvertRedIndex, ConvertGreenIndex, ConvertBlueIndex,
ConvertAlphaIndex>()`: four setter calls on a value-initialised object of the
other index order, each with the getter of `*this`. -/
def Color.Convert [Zero T] (self : Color T R G B A)
    (ConvertRedIndex ConvertGreenIndex ConvertBlueIndex ConvertAlphaIndex : Fin 4) :
    Color T ConvertRedIndex ConvertGreenIndex ConvertBlueIndex ConvertAlphaIndex :=
  let ret : Color T ConvertRedIndex ConvertGreenIndex ConvertBlueIndex ConvertAlphaIndex :=
    Color.valueInit
  let ret := ret.SetRed self.GetRed
  let ret := ret.SetGreen self.GetGreen
  let ret := ret.SetBlue self.GetBlue
  let ret := ret.SetAlpha self.GetAlpha
  ret

/-- Member `operator += (const Color<...> & color)`, the argument being an
object other than `*this`, of any index order: four setter calls in source
order; the value is `*this` after the call. -/
def Color.opAddAssign [Add T] {R2 G2 B2 A2 : Fin 4}
    (self : Color T R G B A) (color : Color T R2 G2 B2 A2) : Color T R G B A :=
  let self := self.SetRed (self.GetRed + color.GetRed)
  let self := self.SetGreen (self.GetGreen + color.GetGreen)
  let self := self.SetBlue (self.GetBlue + color.GetBlue)
  let self := self.SetAlpha (self.GetAlpha + color.GetAlpha)
  self

/-- Member `operator *= (const ValueType val)`; in exact arithmetic
`static_cast<T>` is the identity. The value is `*this` after the call. -/
def Color.opMulAssign [Mul T] (self : Color T R G B A) (val : T) : Color T R G B A :=
  let self := self.SetRed (self.GetRed * val)
  let self := self.SetGreen (self.GetGreen * val)
  let self := self.SetBlue (self.GetBlue * val)
  let self := self.SetAlpha (self.GetAlpha * val)
  self

/-- Member `operator + (const Color<...> & color)`, not declared `const`: the
first component is `*this` after the call (the body only calls getters on
it), the second the returned colour `ret += color`. -/
def Color.opAdd [Zero T] [Add T] {R2 G2 B2 A2 : Fin 4}
    (self : Color T R G B A) (color : Color T R2 G2 B2 A2) :
    Color T R G B A × Color T R G B A :=
  let ret : Color T R G B A := Color.valueInit
  let ret := ret.SetRed self.GetRed
  let ret := ret.SetGreen self.GetGreen
  let ret := ret.SetBlue self.GetBlue
  let ret := ret.SetAlpha self.GetAlpha
  (self, ret.opAddAssign color)

/-- Member `operator * (const ValueType val)`, not declared `const`: the first
component is `*this` after the call, the second the returned colour
`ret *= val`. -/
def Color.opMul [Zero T] [Mul T] (self : Color T R G B A) (val : T) :
    Color T R G B A × Color T R G B A :=
  let ret : Color T R G B A := Color.valueInit
  let ret := ret.SetRed self.GetRed
  let ret := ret.SetGreen self.GetGreen
  let ret := ret.SetBlue self.GetBlue
  let ret := ret.SetAlpha self.GetAlpha
  (self, ret.opMulAssign val)

/-- The expression `a + b` on colours: the colour returned by `operator +`. -/
instance Color.instHAdd [Zero T] [Add T] {R2 G2 B2 A2 : Fin 4} :
    HAdd (Color T R G B A) (Color T R2 G2 B2 A2) (Color T R G B A) :=
  ⟨fun a b => (a.opAdd b).2⟩

/-- The expression `a * val` on a colour: the colour returned by `operator *`. -/
instance Color.instHMul [Zero T] [Mul T] : HMul (Color T R G B A) T (Color T R G B A) :=
  ⟨fun a val => (a.opMul val).2⟩

end ColorMembers

/-- The alias `RGBAColor<T>`. -/
abbrev RGBAColor (T : Type) := Color T 0 1 2 3

/-- The alias `BGRAColor<T>`. -/
abbrev BGRAColor (T : Type) := Color T 2 1 0 3

/-- The alias `ARGBColor<T>`. -/
abbrev ARGBColor (T : Type) := Color T 3 0 1 2

/-- The alias `ABGRColor<T>`. -/
abbrev ABGRColor (T : Type) := Color T 3 2 1 0

/-! ## Numbers of the platform -/

/-- The largest value of the type `int`, which has 32 bits. -/
def INT_MAX : Nat := 2147483647

/-- Rounding of a rational to the nearest integer, a tie going to the even
neighbour. -/
def roundHalfEven (t : ℚ) : ℤ :=
  if t - ⌊t⌋ < 1 / 2 then ⌊t⌋
  else if 1 / 2 < t - ⌊t⌋ then ⌊t⌋ + 1
  else if ⌊t⌋ % 2 = 0 then ⌊t⌋ else ⌊t⌋ + 1

/-- Rounding of a rational to the nearest binary floating-point number with a
significand of `p` bits, ties to even. The range of the exponent is not
limited: the numbers of this development are far from overflow and underflow. -/
def roundTo (p : Nat) (q : ℚ) : ℚ :=
  if q = 0 then 0
  else (roundHalfEven (q / 2 ^ (Int.log 2 |q| - ((p : ℤ) - 1))) : ℚ) *
    2 ^ (Int.log 2 |q| - ((p : ℤ) - 1))

/-- The value that an operation on `double` delivers for the exact result `q`
(IEEE binary64, significand of 53 bits). -/
def toDouble (q : ℚ) : ℚ := roundTo 53 q

/-! ## Mandelbrot.h: the renderer -/

/-- The class `Mandelbrot<Width, Height, ColorType, RedColorIndex, GreenColorIndex,
BlueColorIndex, AlphaColorIndex, ColorsSize>`: members `backgroundColor` and
`colors` (a `std::array` of `ColorsSize` colours). -/
structure Mandelbrot (Width Height : Nat) (ColorType : Type) (R G B A : Fin 4)
    (ColorsSize : Nat) where
  backgroundColor : Color ColorType R G B A
  colors : Fin ColorsSize → Color ColorType R G B A

section Renderer

variable {Width Height : Nat} {R G B A : Fin 4} {ColorsSize : Nat}

/-- The lambda `GetColor` of `Render`:
`(iterations < maxIterations) ? colors[iterations % ColorsSize] : backgroundColor`.
`ColorsSize` is positive: the source divides by it. -/
def Render.GetColor {ColorType : Type} (hn : 0 < ColorsSize) (iterations maxIterations : Nat)
    (backgroundColor : Color ColorType R G B A)
    (colors : Fin ColorsSize → Color ColorType R G B A) : Color ColorType R G B A :=
  if iterations < maxIterations then colors ⟨iterations % ColorsSize, Nat.mod_lt _ hn⟩
  else backgroundColor

/-- The local constant `sin_phi_div_2` of `Render`: declared `const auto` with a
floating literal, so a `double`, the one nearest to the literal. -/
def Render.sin_phi_div_2 : Real := toDouble 0.35355339059327376220042218105242

/-- The expression `static_cast<Real>(x + d)` of `Render` for the `int` counter `x`
and a `double` `d`: the sum is evaluated in `double`; the cast to `Real` is
exact. -/
def Render.plus (x : Nat) (d : Real) : Real := toDouble ((x : Real) + d)

/-- The expression `static_cast<Real>(x - d)` of `Render` for the `int` counter `x`
and a `double` `d`: the difference is evaluated in `double`; the cast to `Real`
is exact. -/
def Render.minus (x : Nat) (d : Real) : Real := toDouble ((x : Real) - d)

/-- The colour assigned to `result[x + (y * Width)]` in the anti-aliased branch
of `Render`, the expression as written in the source. -/
def Render.antiAliasedValue (hn : 0 < ColorsSize)
    (self : Mandelbrot Width Height Real R G B A ColorsSize) (maxIterations : Nat)
    (x y : Nat) : Color Real R G B A :=
  (Render.GetColor hn (GetMandelbrotPointIterations (x : Real) (y : Real) Width Height maxIterations) maxIterations self.backgroundColor self.colors +
  ((
    Render.GetColor hn (GetMandelbrotPointIterations (Render.plus x 0.5) (y : Real) Width Height maxIterations) maxIterations self.backgroundColor self.colors +
    Render.GetColor hn (GetMandelbrotPointIterations (Render.minus x 0.5) (y : Real) Width Height maxIterations) maxIterations self.backgroundColor self.colors +
    Render.GetColor hn (GetMandelbrotPointIterations (x : Real) (Render.plus y 0.5) Width Height maxIterations) maxIterations self.backgroundColor self.colors +
    Render.GetColor hn (GetMandelbrotPointIterations (x : Real) (Render.minus y 0.5) Width Height maxIterations) maxIterations self.backgroundColor self.colors +
    Render.GetColor hn (GetMandelbrotPointIterations (Render.plus x Render.sin_phi_div_2) (Render.plus y Render.sin_phi_div_2) Width Height maxIterations) maxIterations self.backgroundColor self.colors +
    Render.GetColor hn (GetMandelbrotPointIterations (Render.minus x Render.sin_phi_div_2) (Render.plus y Render.sin_phi_div_2) Width Height maxIterations) maxIterations self.backgroundColor self.colors +
    Render.GetColor hn (GetMandelbrotPointIterations (Render.plus x Render.sin_phi_div_2) (Render.minus y Render.sin_phi_div_2) Width Height maxIterations) maxIterations self.backgroundColor self.colors +
    Render.GetColor hn (GetMandelbrotPointIterations (Render.minus x Render.sin_phi_div_2) (Render.minus y Render.sin_phi_div_2) Width Height maxIterations) maxIterations self.backgroundColor self.colors
    ) * (0.125 : Real))) * (0.5 : Real)

/-- The colour assigned to `result[x + (y * Width)]` in the other branch of
`Render`. -/
def Render.plainValue (hn : 0 < ColorsSize)
    (self : Mandelbrot Width Height Real R G B A ColorsSize) (maxIterations : Nat)
    (x y : Nat) : Color Real R G B A :=
  Render.GetColor hn (GetMandelbrotPointIterations (x : Real) (y : Real) Width Height maxIterations) maxIterations self.backgroundColor self.colors

/-- A loop `for (int k = ...; k < bound; k++) body` from the counter value `k` in
the state `s`; the first argument bounds the number of trips still allowed. The
counter is an `int` compared with a `size_t` bound: the increment of a counter
that holds `INT_MAX` is undefined, and the loop has no value (`none`) then.
With `INT_MAX + 1` trips allowed the loop never stops for lack of them (see
`Render.forInt_eq` and `Render.forInt_overflow`). -/
def Render.forInt {σ : Type} (bound : Nat) (body : Nat → σ → Option σ) :
    Nat → Nat → σ → Option σ
  | 0, _, _ => none
  | fuel + 1, k, s =>
    if k < bound then
      match body k s with
      | none => none
      | some s' =>
        if k = INT_MAX then none else Render.forInt bound body fuel (k + 1) s'
    else some s

/-- The two nested `for` loops that both branches of `Render` have:
`for (int y(0), x(0); y < Height; y++) for (x = 0; x < Width; x++)
result[x + (y * Width)] = value x y`.
The buffer is a list; an assignment past its end, undefined in the source,
leaves it as it is. -/
def Render.fill (Width Height : Nat) {α : Type} (value : Nat → Nat → α) (result : List α) :
    Option (List α) :=
  Render.forInt Height
    (fun y result =>
      Render.forInt Width
        (fun x result => some (result.set (x + (y * Width)) (value x y)))
        (INT_MAX + 1) 0 result)
    (INT_MAX + 1) 0 result

/-- Member `Render(ResultType & result, size_t maxIterations, bool antiAliased) const`;
the value is the buffer after the call, or `none` when a loop counter
overflows. -/
def Render (hn : 0 < ColorsSize) (self : Mandelbrot Width Height Real R G B A ColorsSize)
    (result : List (Color Real R G B A)) (maxIterations : Nat) (antiAliased : Bool) :
    Option (List (Color Real R G B A)) :=
  if antiAliased then
    Render.fill Width Height (Render.antiAliasedValue hn self maxIterations) result
  else
    Render.fill Width Height (Render.plainValue hn self maxIterations) result

end Renderer

/-- The buffer after the two nested loops of `Render` when no counter overflows:
every pixel is assigned in row-major order. -/
def Render.filled (Width Height : Nat) {α : Type} (value : Nat → Nat → α) (result : List α) :
    List α :=
  (List.range Height).foldl
    (fun result y =>
      (List.range Width).foldl (fun result x => result.set (x + (y * Width)) (value x y)) result)
    result

/-! ## The recurrence in the words of the specification -/

/-- Specification 4.1, `multiply`: `(a+bi)(c+di) = (ac−bd) + (ad+bc)i`. -/
def specMul (z w : Complex Real) : Complex Real :=
  { real := z.real * w.real - z.imaginary * w.imaginary
    imaginary := z.real * w.imaginary + z.imaginary * w.real }

/-- Specification 4.1, `add`: component-wise addition. -/
def specAdd (z w : Complex Real) : Complex Real :=
  { real := z.real + w.real, imaginary := z.imaginary + w.imaginary }

/-- Specification 4.1, `magnitudeSquared`: `real² + imaginary²`. -/
def specMagnitudeSquared (z : Complex Real) : Real := z.real ^ 2 + z.imaginary ^ 2

/-- Specification 4.2: `z_0 = 0` and `z_{k+1} = z_k·z_k + c`. -/
def specOrbit (c : Complex Real) : Nat → Complex Real
  | 0 => { real := 0, imaginary := 0 }
  | k + 1 => specAdd (specMul (specOrbit c k) (specOrbit c k)) c

/-- The four index parameters are a permutation of `{0, 1, 2, 3}`: no two of
them are the same position (as for `RGBAColor`, `BGRAColor`, `ARGBColor` and
`ABGRColor`). -/
def Color.IsPermutation (R G B A : Fin 4) : Prop := [R, G, B, A].Nodup

instance Color.instDecidableIsPermutation (R G B A : Fin 4) :
    Decidable (Color.IsPermutation R G B A) :=
  inferInstanceAs (Decidable ([R, G, B, A].Nodup))

/-- Specification 4.4: one sample of a pixel, the colour mapper (4.3) applied to
the evaluator (4.2) at the coordinate `(px, py)`. -/
def Render.specSample {Width Height : Nat} {R G B A : Fin 4} {ColorsSize : Nat}
    (hn : 0 < ColorsSize) (self : Mandelbrot Width Height Real R G B A ColorsSize)
    (maxIterations : Nat) (px py : Real) : Color Real R G B A :=
  Render.GetColor hn (GetMandelbrotPointIterations px py Width Height maxIterations)
    maxIterations self.backgroundColor self.colors

/-- Specification 4.4: position `i` of the anti-aliased pixel `(x, y)`,
`center·0.5 + (sum of the 8 surrounding samples)·0.125·0.5`, the surrounding
samples being at `(x±0.5, y)`, `(x, y±0.5)` and `(x±d, y±d)`, where `d` is the
constant `sin_phi_div_2` and the sums `x±d`, `y±d` are the values that the
source obtains for them in `double`. -/
def Render.specBlend {Width Height : Nat} {R G B A : Fin 4} {ColorsSize : Nat}
    (hn : 0 < ColorsSize) (self : Mandelbrot Width Height Real R G B A ColorsSize)
    (maxIterations : Nat) (x y : Nat) (i : Fin 4) : Real :=
  (Render.specSample hn self maxIterations x y).data i * 0.5 +
    ((Render.specSample hn self maxIterations (x + 0.5) y).data i +
      (Render.specSample hn self maxIterations (x - 0.5) y).data i +
      (Render.specSample hn self maxIterations x (y + 0.5)).data i +
      (Render.specSample hn self maxIterations x (y - 0.5)).data i +
      (Render.specSample hn self maxIterations (Render.plus x Render.sin_phi_div_2)
        (Render.plus y Render.sin_phi_div_2)).data i +
      (Render.specSample hn self maxIterations (Render.minus x Render.sin_phi_div_2)
        (Render.plus y Render.sin_phi_div_2)).data i +
      (Render.specSample hn self maxIterations (Render.plus x Render.sin_phi_div_2)
        (Render.minus y Render.sin_phi_div_2)).data i +
      (Render.specSample hn self maxIterations (Render.minus x Render.sin_phi_div_2)
        (Render.minus y Render.sin_phi_div_2)).data i) *
      0.125 * 0.5

/-- The least value at position `i` over the 9 sample colours of the
anti-aliased pixel `(x, y)`. -/
def Render.specSampleMin {Width Height : Nat} {R G B A : Fin 4} {ColorsSize : Nat}
    (hn : 0 < ColorsSize) (self : Mandelbrot Width Height Real R G B A ColorsSize)
    (maxIterations : Nat) (x y : Nat) (i : Fin 4) : Real :=
  min ((Render.specSample hn self maxIterations x y).data i)
  (min ((Render.specSample hn self maxIterations (x + 0.5) y).data i)
  (min ((Render.specSample hn self maxIterations (x - 0.5) y).data i)
  (min ((Render.specSample hn self maxIterations x (y + 0.5)).data i)
  (min ((Render.specSample hn self maxIterations x (y - 0.5)).data i)
  (min ((Render.specSample hn self maxIterations (Render.plus x Render.sin_phi_div_2)
        (Render.plus y Render.sin_phi_div_2)).data i)
  (min ((Render.specSample hn self maxIterations (Render.minus x Render.sin_phi_div_2)
        (Render.plus y Render.sin_phi_div_2)).data i)
  (min ((Render.specSample hn self maxIterations (Render.plus x Render.sin_phi_div_2)
        (Render.minus y Render.sin_phi_div_2)).data i)
  ((Render.specSample hn self maxIterations (Render.minus x Render.sin_phi_div_2)
        (Render.minus y Render.sin_phi_div_2)).data i))))))))

/-- The greatest value at position `i` over the 9 sample colours of the
anti-aliased pixel `(x, y)`. -/
def Render.specSampleMax {Width Height : Nat} {R G B A : Fin 4} {ColorsSize : Nat}
    (hn : 0 < ColorsSize) (self : Mandelbrot Width Height Real R G B A ColorsSize)
    (maxIterations : Nat) (x y : Nat) (i : Fin 4) : Real :=
  max ((Render.specSample hn self maxIterations x y).data i)
  (max ((Render.specSample hn self maxIterations (x + 0.5) y).data i)
  (max ((Render.specSample hn self maxIterations (x - 0.5) y).data i)
  (max ((Render.specSample hn self maxIterations x (y + 0.5)).data i)
  (max ((Render.specSample hn self maxIterations x (y - 0.5)).data i)
  (max ((Render.specSample hn self maxIterations (Render.plus x Render.sin_phi_div_2)
        (Render.plus y Render.sin_phi_div_2)).data i)
  (max ((Render.specSample hn self maxIterations (Render.minus x Render.sin_phi_div_2)
        (Render.plus y Render.sin_phi_div_2)).data i)
  (max ((Render.specSample hn self maxIterations (Render.plus x Render.sin_phi_div_2)
        (Render.minus y Render.sin_phi_div_2)).data i)
  ((Render.specSample hn self maxIterations (Render.minus x Render.sin_phi_div_2)
        (Render.minus y Render.sin_phi_div_2)).data i))))))))

/-- Complex conjugate `a − bi` of `a + bi`. -/
def specConj (z : Complex Real) : Complex Real :=
  { real := z.real, imaginary := -z.imaginary }

/-! ## main.cpp -/

/-- The typedef `FloatColor` (`RGBAColor<float>`), in exact arithmetic. -/
abbrev FloatColor := RGBAColor Real

/-- The typedef `ByteColor` (`RGBAColor<uint8_t>`): channel values `0 .. 255`. -/
abbrev ByteColor := RGBAColor Nat

/-- The standard library function `std::clamp<Real>(v, lo, hi)`:
`(v < lo) ? lo : (hi < v) ? hi : v`. -/
def clamp (v lo hi : Real) : Real := if v < lo then lo else if hi < v then hi else v

/-- The conversion `static_cast<uint8_t>(v)`: the fraction is cut off (rounding
toward zero) and the result is kept in 8 bits. The source defines it for the
values whose integer part is in `0 .. 255`. -/
def castUInt8 (v : Real) : Nat := (if 0 ≤ v then ⌊v⌋ else ⌈v⌉).toNat % 256

/-- The body of the loop of `ConvertImage` for one input colour: the four
setter calls on the local `ByteColor c`, whose content before them is `c`. -/
def ConvertImage.pixel (c : ByteColor) (color : FloatColor) : ByteColor :=
  let c := c.SetRed (castUInt8 (clamp color.GetRed 0 1 * 255))
  let c := c.SetGreen (castUInt8 (clamp color.GetGreen 0 1 * 255))
  let c := c.SetBlue (castUInt8 (clamp color.GetBlue 0 1 * 255))
  let c := c.SetAlpha (castUInt8 (clamp color.GetAlpha 0 1 * 255))
  c

/-- One trip of the loop of `ConvertImage`: `result[i] = c`, where `c` is built
from `input[i]`. The loop only reads indices below `input.size()`. -/
def ConvertImage.step (c0 : ByteColor) (input : List FloatColor) (result : List ByteColor)
    (i : Nat) : List ByteColor :=
  match input[i]? with
  | some color => result.set i (ConvertImage.pixel c0 color)
  | none => result

/-- The function `ConvertImage(input, result)`:
`for (i = 0; i != input.size(); i++) result[i] = c`, where `c` is built from
`input[i]`. The local `ByteColor c` is declared without an initialiser; `c0`
stands for its content at that point. The value is the buffer `result` after
the call. -/
def ConvertImage (c0 : ByteColor) (input : List FloatColor) (result : List ByteColor) :
    List ByteColor :=
  (List.range input.length).foldl (ConvertImage.step c0 input) result

/-- Specification 6: a channel value clamped to `[0, 1]`, scaled by `255` and
truncated, `floor(min(max(v, 0), 1)·255)`. -/
def specByte (v : Real) : Nat := ⌊min (max v 0) 1 * 255⌋₊

/-! ## The evaluator in `long double` arithmetic -/

/-- A value of the type `long double` as the x86 platforms have it: the extended
format, with a significand of 64 bits. -/
structure LongDouble where
  val : ℚ
deriving DecidableEq

/-- The value that an operation on `long double` delivers for the exact result
`q`. -/
def LongDouble.round (q : ℚ) : LongDouble := ⟨roundTo 64 q⟩

instance LongDouble.instZero : Zero LongDouble := ⟨⟨0⟩⟩

instance LongDouble.instOne : One LongDouble := ⟨⟨1⟩⟩

instance LongDouble.instNeg : Neg LongDouble := ⟨fun a => ⟨-a.val⟩⟩

instance LongDouble.instAdd : Add LongDouble := ⟨fun a b => LongDouble.round (a.val + b.val)⟩

instance LongDouble.instSub : Sub LongDouble := ⟨fun a b => LongDouble.round (a.val - b.val)⟩

instance LongDouble.instMul : Mul LongDouble := ⟨fun a b => LongDouble.round (a.val * b.val)⟩

instance LongDouble.instDiv : Div LongDouble := ⟨fun a b => LongDouble.round (a.val / b.val)⟩

instance LongDouble.instLT : LT LongDouble := ⟨fun a b => a.val < b.val⟩

instance LongDouble.instDecidableLT (a b : LongDouble) : Decidable (a < b) :=
  inferInstanceAs (Decidable (a.val < b.val))

/-- Static member `GetComplexFromPixel` in `long double` arithmetic: the
conversion of `width` and `height` and each operation round; the constants
`3.0`, `2.0` and `1.0` are exact. -/
def LongDouble.GetComplexFromPixel (x y : LongDouble) (width height : Nat) :
    Complex LongDouble :=
  { real := ((x / LongDouble.round (width : ℚ)) * ⟨3⟩) - ⟨2⟩
    imaginary := ((y / LongDouble.round (height : ℚ)) * ⟨2⟩) - ⟨1⟩ }

/-- The `for` loop of `GetMandelbrotPointIterations` in `long double`
arithmetic, on the operators of `Complex.h` at the type `LongDouble`. The
product `1000.0 * 1000.0` is evaluated in `double`; its conversion for the
comparison is exact. -/
def LongDouble.GetMandelbrotPointIterations.loop (maxIterations : Nat) :
    Nat → Nat → Store LongDouble → Nat
  | 0, i, _ => i
  | fuel + 1, i, s =>
    if i ≠ maxIterations ∧ (s zLoc).GetMagnitudeSquared < ⟨toDouble (1000 * 1000)⟩ then
      LongDouble.GetMandelbrotPointIterations.loop maxIterations fuel (i + 1)
        (Complex.opAddAssign (Complex.opMulAssign s zLoc zLoc) zLoc cLoc)
    else i

/-- Static member `GetMandelbrotPointIterations` in `long double` arithmetic. -/
def LongDouble.GetMandelbrotPointIterations (x y : LongDouble)
    (width height maxIterations : Nat) : Nat :=
  let c : Complex LongDouble := LongDouble.GetComplexFromPixel x y width height
  let z : Complex LongDouble := { real := 0, imaginary := 0 }
  let s : Store LongDouble := fun p => if p = cLoc then c else z
  LongDouble.GetMandelbrotPointIterations.loop maxIterations maxIterations 0 s

/-! ## Complex.h: the operators on the store -/

/-- Reading the store after `setReal`. -/
theorem Store.setReal_apply {T : Type} (s : Store T) (p r : Nat) (v : T) :
    (s.setReal p v) r = if r = p then { s p with real := v } else s r := by
  unfold Store.setReal
  by_cases h : r = p
  · subst h; simp
  · simp [h]

/-- Reading the store after `setImaginary`. -/
theorem Store.setImaginary_apply {T : Type} (s : Store T) (p r : Nat) (v : T) :
    (s.setImaginary p v) r = if r = p then { s p with imaginary := v } else s r := by
  unfold Store.setImaginary
  by_cases h : r = p
  · subst h; simp
  · simp [h]

/-- Reading the store after `self += complex`, for any two locations. -/
theorem Complex.opAddAssign_apply {T : Type} [Add T] (s : Store T) (p q r : Nat) :
    (Complex.opAddAssign s p q) r =
      if r = p then
        { real := (s p).real + (s q).real, imaginary := (s p).imaginary + (s q).imaginary }
      else s r := by
  unfold Complex.opAddAssign
  by_cases h : r = p
  · subst h
    by_cases hq : q = r
    · subst hq; simp [Store.setReal_apply, Store.setImaginary_apply]
    · simp [Store.setReal_apply, Store.setImaginary_apply, hq]
  · simp [Store.setReal_apply, Store.setImaginary_apply, h]

/-- Reading the store after `self *= complex`, for any two locations. -/
theorem Complex.opMulAssign_apply {T : Type} [Add T] [Mul T] [Neg T] [One T]
    (s : Store T) (p q r : Nat) :
    (Complex.opMulAssign s p q) r =
      if r = p then
        { real := ((s p).real * (s q).real) + ((s p).imaginary * (s q).imaginary * (-1))
          imaginary := ((s p).real * (s q).imaginary) + ((s q).real * (s p).imaginary) }
      else s r := by
  unfold Complex.opMulAssign
  by_cases h : r = p
  · subst h; simp [Store.setReal_apply, Store.setImaginary_apply]
  · simp [Store.setReal_apply, Store.setImaginary_apply, h]

/-! ## The evaluator against the recurrence -/

/-- One trip of the loop body `z *= z; z += c;` leaves `c` as it is. -/
theorem body_cLoc (s : Store Real) :
    (Complex.opAddAssign (Complex.opMulAssign s zLoc zLoc) zLoc cLoc) cLoc = s cLoc := by
  simp [Complex.opAddAssign_apply, Complex.opMulAssign_apply, zLoc, cLoc]

/-- One trip of the loop body `z *= z; z += c;` takes `z` to `z·z + c`. -/
theorem body_zLoc (s : Store Real) :
    (Complex.opAddAssign (Complex.opMulAssign s zLoc zLoc) zLoc cLoc) zLoc =
      specAdd (specMul (s zLoc) (s zLoc)) (s cLoc) := by
  simp only [Complex.opAddAssign_apply, Complex.opMulAssign_apply, zLoc, cLoc, specAdd, specMul]
  simp
  constructor <;> ring

/-- The test `z.GetMagnitudeSquared() < (1000.0 * 1000.0)` in the words of the
specification. -/
theorem guard_iff (z : Complex Real) :
    z.GetMagnitudeSquared < 1000 * 1000 ↔ specMagnitudeSquared z < 1000000 := by
  unfold Complex.GetMagnitudeSquared specMagnitudeSquared
  norm_num [sq]

/-- The loop started with enough fuel does not depend on the fuel: it leaves
through its own test, never through the bound on the trips. -/
theorem loop_fuel (maxIterations : Nat) :
    ∀ (fuel i : Nat) (s : Store Real), i ≤ maxIterations → maxIterations ≤ i + fuel →
      GetMandelbrotPointIterations.loop maxIterations fuel i s =
        GetMandelbrotPointIterations.loop maxIterations (maxIterations - i) i s := by
  intro fuel
  induction fuel with
  | zero =>
    intro i s h1 h2
    have hi : maxIterations - i = 0 := by omega
    rw [hi]
  | succ fuel ih =>
    intro i s h1 h2
    by_cases hi : i = maxIterations
    · subst hi
      simp [GetMandelbrotPointIterations.loop]
    · obtain ⟨k, hk⟩ : ∃ k, maxIterations - i = k + 1 := ⟨maxIterations - i - 1, by omega⟩
      rw [hk]
      simp only [GetMandelbrotPointIterations.loop]
      split
      · rw [ih (i + 1) _ (by omega) (by omega)]
        have : maxIterations - (i + 1) = k := by omega
        rw [this]
      · rfl

/-- The loop from a state that holds `c` and the iterate `z_i`: its value `r`
is the first index from `i` on at which the loop test fails. -/
theorem loop_spec (maxIterations : Nat) (c : Complex Real) :
    ∀ (fuel i : Nat) (s : Store Real), i + fuel = maxIterations → s cLoc = c →
      s zLoc = specOrbit c i →
      i ≤ GetMandelbrotPointIterations.loop maxIterations fuel i s ∧
      GetMandelbrotPointIterations.loop maxIterations fuel i s ≤ maxIterations ∧
      (GetMandelbrotPointIterations.loop maxIterations fuel i s = maxIterations ∨
        1000000 ≤ specMagnitudeSquared
          (specOrbit c (GetMandelbrotPointIterations.loop maxIterations fuel i s))) ∧
      ∀ k, i ≤ k → k < GetMandelbrotPointIterations.loop maxIterations fuel i s →
        specMagnitudeSquared (specOrbit c k) < 1000000 := by
  intro fuel
  induction fuel with
  | zero =>
    intro i s h1 _ _
    simp only [GetMandelbrotPointIterations.loop]
    refine ⟨le_refl _, by omega, Or.inl (by omega), ?_⟩
    intro k h3 h4
    omega
  | succ fuel ih =>
    intro i s h1 hc hz
    simp only [GetMandelbrotPointIterations.loop]
    split
    next hg =>
      have hz2 : (Complex.opAddAssign (Complex.opMulAssign s zLoc zLoc) zLoc cLoc) zLoc =
          specOrbit c (i + 1) := by
        rw [body_zLoc, hz, hc]
        rfl
      have hc2 := (body_cLoc s).trans hc
      obtain ⟨a1, a2, a3, a4⟩ := ih (i + 1) _ (by omega) hc2 hz2
      refine ⟨by omega, a2, a3, ?_⟩
      intro k h3 h4
      by_cases hk : k = i
      · subst hk
        rw [← hz]
        exact (guard_iff _).1 hg.2
      · exact a4 k (by omega) h4
    next hg =>
      have hi : i ≠ maxIterations := by omega
      have hm : ¬ (s zLoc).GetMagnitudeSquared < 1000 * 1000 := fun h => hg ⟨hi, h⟩
      rw [guard_iff, hz] at hm
      refine ⟨le_refl _, by omega, Or.inr (not_lt.1 hm), ?_⟩
      intro k h3 h4
      omega

/-- The evaluator in terms of the recurrence of the pixel's coordinate. -/
theorem evaluator_spec (x y : Real) (width height maxIterations : Nat) :
    GetMandelbrotPointIterations x y width height maxIterations ≤ maxIterations ∧
    (GetMandelbrotPointIterations x y width height maxIterations = maxIterations ∨
      1000000 ≤ specMagnitudeSquared
        (specOrbit (GetComplexFromPixel x y width height)
          (GetMandelbrotPointIterations x y width height maxIterations))) ∧
    ∀ k, k < GetMandelbrotPointIterations x y width height maxIterations →
      specMagnitudeSquared (specOrbit (GetComplexFromPixel x y width height) k) < 1000000 := by
  have h := loop_spec maxIterations (GetComplexFromPixel x y width height) maxIterations 0
    (fun p => if p = cLoc then GetComplexFromPixel x y width height
      else { real := 0, imaginary := 0 })
    (by omega) (by simp) (by simp [zLoc, cLoc, specOrbit])
  obtain ⟨_, a2, a3, a4⟩ := h
  exact ⟨a2, a3, fun k hk => a4 k (Nat.zero_le _) hk⟩

/-- If the recurrence first reaches the escape radius at index `n`, the
evaluator returns `min maxIterations n`. -/
theorem evaluator_eq_min (x y : Real) (width height maxIterations n : Nat)
    (hlt : ∀ k, k < n →
      specMagnitudeSquared (specOrbit (GetComplexFromPixel x y width height) k) < 1000000)
    (hge : 1000000 ≤ specMagnitudeSquared (specOrbit (GetComplexFromPixel x y width height) n)) :
    GetMandelbrotPointIterations x y width height maxIterations = min maxIterations n := by
  obtain ⟨a2, a3, a4⟩ := evaluator_spec x y width height maxIterations
  have h1 : GetMandelbrotPointIterations x y width height maxIterations ≤ n := by
    by_contra hcon
    exact absurd (a4 n (by omega)) (not_lt.2 hge)
  rcases a3 with a3 | a3
  · omega
  · have h2 : ¬ GetMandelbrotPointIterations x y width height maxIterations < n :=
      fun hcon => absurd (hlt _ hcon) (not_lt.2 a3)
    omega

/-- If the recurrence stays inside the escape radius below `maxIterations`,
the evaluator returns `maxIterations`. -/
theorem evaluator_eq_max (x y : Real) (width height maxIterations : Nat)
    (hlt : ∀ k, k < maxIterations →
      specMagnitudeSquared (specOrbit (GetComplexFromPixel x y width height) k) < 1000000) :
    GetMandelbrotPointIterations x y width height maxIterations = maxIterations := by
  obtain ⟨a2, a3, _⟩ := evaluator_spec x y width height maxIterations
  rcases a3 with a3 | a3
  · exact a3
  · by_contra hcon
    exact absurd (hlt _ (by omega)) (not_lt.2 a3)

/-! ## Claims on the evaluator and on `Complex` -/

/-- C1: for `width > 0` and `height > 0`, in exact arithmetic,
`GetMandelbrotPointIterations(x, y, width, height, maxIterations)` is the least
`k` in `[0, maxIterations]` with `k = maxIterations` or `|z_k|² ≥ 1,000,000`,
where `c = GetComplexFromPixel(x, y, width, height)`, `z_0 = 0` and
`z_{k+1} = z_k·z_k + c`; the result never exceeds `maxIterations` and equals
it exactly when no `z_k` with `k < maxIterations` has `|z_k|² ≥ 1,000,000`. -/
theorem GetMandelbrotPointIterations_least (x y : Real) (width height maxIterations : Nat)
    (_hw : 0 < width) (_hh : 0 < height) :
    (GetMandelbrotPointIterations x y width height maxIterations ≤ maxIterations ∧
      (GetMandelbrotPointIterations x y width height maxIterations = maxIterations ∨
        1000000 ≤ specMagnitudeSquared
          (specOrbit (GetComplexFromPixel x y width height)
            (GetMandelbrotPointIterations x y width height maxIterations))) ∧
      ∀ k, k ≤ maxIterations →
        (k = maxIterations ∨
          1000000 ≤ specMagnitudeSquared (specOrbit (GetComplexFromPixel x y width height) k)) →
        GetMandelbrotPointIterations x y width height maxIterations ≤ k) ∧
    (GetMandelbrotPointIterations x y width height maxIterations = maxIterations ↔
      ∀ k, k < maxIterations →
        ¬ 1000000 ≤ specMagnitudeSquared
          (specOrbit (GetComplexFromPixel x y width height) k)) := by
  obtain ⟨a2, a3, a4⟩ := evaluator_spec x y width height maxIterations
  refine ⟨⟨a2, a3, ?_⟩, ?_, ?_⟩
  · intro k hk hP
    by_contra hcon
    rcases hP with hP | hP
    · omega
    · exact absurd (a4 k (by omega)) (not_lt.2 hP)
  · intro h k hk
    exact not_le.2 (a4 k (by omega))
  · intro h
    exact evaluator_eq_max x y width height maxIterations (fun k hk => not_le.1 (h k hk))

/-- Witness of C1 at the pixel `(4, 3)` of a `3 × 2` image, `maxIterations = 128`. -/
theorem GetMandelbrotPointIterations_least_witness :
    (0 < 3 ∧ 0 < 2) ∧
    GetMandelbrotPointIterations 4 3 3 2 128 ≤ 128 ∧
    (GetMandelbrotPointIterations 4 3 3 2 128 = 128 ∨
      1000000 ≤ specMagnitudeSquared
        (specOrbit (GetComplexFromPixel 4 3 3 2) (GetMandelbrotPointIterations 4 3 3 2 128))) :=
  ⟨⟨by decide, by decide⟩,
    (GetMandelbrotPointIterations_least 4 3 3 2 128 (by decide) (by decide)).1.1,
    (GetMandelbrotPointIterations_least 4 3 3 2 128 (by decide) (by decide)).1.2.1⟩

/-- C5: for `width > 0` and `height > 0`, `GetComplexFromPixel(x, y, width, height)`
has `real = (x/width)·3 − 2` and `imaginary = (y/height)·2 − 1`; for
`0 ≤ x ≤ width` and `0 ≤ y ≤ height` the result lies in `[−2, 1] × [−1, 1]`;
pixel `(0, 0)` maps to `−2 − i` and `(width, height)` to `1 + i`. -/
theorem GetComplexFromPixel_window (x y : Real) (width height : Nat)
    (hw : 0 < width) (hh : 0 < height) :
    ((GetComplexFromPixel x y width height).real = (x / (width : Real)) * 3 - 2 ∧
      (GetComplexFromPixel x y width height).imaginary = (y / (height : Real)) * 2 - 1) ∧
    (0 ≤ x → x ≤ (width : Real) → 0 ≤ y → y ≤ (height : Real) →
      (-2 ≤ (GetComplexFromPixel x y width height).real ∧
        (GetComplexFromPixel x y width height).real ≤ 1) ∧
      (-1 ≤ (GetComplexFromPixel x y width height).imaginary ∧
        (GetComplexFromPixel x y width height).imaginary ≤ 1)) ∧
    GetComplexFromPixel 0 0 width height = { real := -2, imaginary := -1 } ∧
    GetComplexFromPixel (width : Real) (height : Real) width height =
      { real := 1, imaginary := 1 } := by
  have hw2 : (0 : Real) < (width : Real) := by exact_mod_cast hw
  have hh2 : (0 : Real) < (height : Real) := by exact_mod_cast hh
  refine ⟨⟨rfl, rfl⟩, ?_, ?_, ?_⟩
  · intro hx0 hx1 hy0 hy1
    have h1 : 0 ≤ x / (width : Real) := div_nonneg hx0 hw2.le
    have h2 : x / (width : Real) ≤ 1 := (div_le_one hw2).2 hx1
    have h3 : 0 ≤ y / (height : Real) := div_nonneg hy0 hh2.le
    have h4 : y / (height : Real) ≤ 1 := (div_le_one hh2).2 hy1
    simp only [GetComplexFromPixel]
    refine ⟨⟨?_, ?_⟩, ?_, ?_⟩ <;> linarith
  · simp [GetComplexFromPixel]
  · simp only [GetComplexFromPixel, div_self hw2.ne', div_self hh2.ne']
    norm_num

/-- Witness of C5 on a `3 × 2` image at the point `(1, 1)`. -/
theorem GetComplexFromPixel_window_witness :
    (0 < 3 ∧ 0 < 2) ∧
    GetComplexFromPixel 0 0 3 2 = { real := -2, imaginary := -1 } ∧
    GetComplexFromPixel ((3 : Nat) : Real) ((2 : Nat) : Real) 3 2 =
      { real := 1, imaginary := 1 } :=
  ⟨⟨by decide, by decide⟩,
    (GetComplexFromPixel_window 1 1 3 2 (by decide) (by decide)).2.2⟩

/-- C6: over a commutative ring, `operator *=` called on the object `a+bi` at
any location with a reference to `c+di` at any location leaves the left
operand equal to `(ac−bd) + (ad+bc)i`, where `c`, `d` are the members of the
right operand before the call, and changes no other object; when both
operands are the same object the result is `(a²−b²) + (2ab)i`. -/
theorem Complex.opMulAssign_standard {T : Type} [CommRing T] (s : Store T) (p q : Nat) :
    (Complex.opMulAssign s p q) p =
      { real := (s p).real * (s q).real - (s p).imaginary * (s q).imaginary
        imaginary := (s p).real * (s q).imaginary + (s p).imaginary * (s q).real } ∧
    (∀ r, r ≠ p → (Complex.opMulAssign s p q) r = s r) ∧
    (Complex.opMulAssign s p p) p =
      { real := (s p).real ^ 2 - (s p).imaginary ^ 2
        imaginary := 2 * (s p).real * (s p).imaginary } := by
  refine ⟨?_, ?_, ?_⟩
  · rw [Complex.opMulAssign_apply]
    simp only [if_true, Complex.mk.injEq]
    constructor <;> ring
  · intro r hr
    rw [Complex.opMulAssign_apply]
    simp [hr]
  · rw [Complex.opMulAssign_apply]
    simp only [if_true, Complex.mk.injEq]
    constructor <;> ring

/-- C9: for `width > 0` and `height > 0` and every `maxIterations`, the
evaluator at the pixel that maps to `0+0i` (`x = 2·width/3`, `y = height/2`;
for instance `width = 3`, `height = 2`, `x = 2`, `y = 1`) returns
`maxIterations`. -/
theorem GetMandelbrotPointIterations_origin (width height maxIterations : Nat)
    (hw : 0 < width) (hh : 0 < height) :
    GetComplexFromPixel (2 * (width : Real) / 3) ((height : Real) / 2) width height =
      { real := 0, imaginary := 0 } ∧
    GetMandelbrotPointIterations (2 * (width : Real) / 3) ((height : Real) / 2)
      width height maxIterations = maxIterations ∧
    GetMandelbrotPointIterations 2 1 3 2 maxIterations = maxIterations := by
  have hw2 : (width : Real) ≠ 0 := by exact_mod_cast hw.ne'
  have hh2 : (height : Real) ≠ 0 := by exact_mod_cast hh.ne'
  have horbit : ∀ k, specOrbit { real := 0, imaginary := 0 } k = { real := 0, imaginary := 0 } := by
    intro k
    induction k with
    | zero => rfl
    | succ k ih => simp [specOrbit, ih, specAdd, specMul]
  have hc : GetComplexFromPixel (2 * (width : Real) / 3) ((height : Real) / 2) width height =
      { real := 0, imaginary := 0 } := by
    simp only [GetComplexFromPixel, Complex.mk.injEq]
    constructor
    · field_simp; ring
    · field_simp; ring
  have hc2 : GetComplexFromPixel 2 1 3 2 = { real := 0, imaginary := 0 } := by
    simp only [GetComplexFromPixel, Complex.mk.injEq]
    norm_num
  refine ⟨hc, ?_, ?_⟩
  · apply evaluator_eq_max
    intro k _
    rw [hc, horbit]
    norm_num [specMagnitudeSquared]
  · apply evaluator_eq_max
    intro k _
    rw [hc2, horbit]
    norm_num [specMagnitudeSquared]

/-- Witness of C9 on a `1500 × 1000` image with `maxIterations = 128`. -/
theorem GetMandelbrotPointIterations_origin_witness :
    (0 < 1500 ∧ 0 < 1000) ∧
    GetMandelbrotPointIterations (2 * ((1500 : Nat) : Real) / 3) (((1000 : Nat) : Real) / 2)
      1500 1000 128 = 128 :=
  ⟨⟨by decide, by decide⟩,
    (GetMandelbrotPointIterations_origin 1500 1000 128 (by decide) (by decide)).2.1⟩

/-- The recurrence of `c = 2+2i`: `z_1 = 2+2i`, `z_2 = 2+10i`, `z_3 = −94+42i`,
`z_4 = 7074−7894i`; the first iterate with `|z|² ≥ 1,000,000` is `z_4`. -/
theorem orbit_two_two :
    (∀ k, k < 4 →
      specMagnitudeSquared (specOrbit { real := 2, imaginary := 2 } k) < 1000000) ∧
    1000000 ≤ specMagnitudeSquared (specOrbit { real := 2, imaginary := 2 } 4) := by
  constructor
  · intro k hk
    interval_cases k <;> norm_num [specOrbit, specAdd, specMul, specMagnitudeSquared]
  · norm_num [specOrbit, specAdd, specMul, specMagnitudeSquared]

/-- The pixel `x = 4·width/3`, `y = 3·height/2` maps to `2+2i`. -/
theorem pixel_two_two (width height : Nat) (hw : 0 < width) (hh : 0 < height) :
    GetComplexFromPixel (4 * (width : Real) / 3) (3 * (height : Real) / 2) width height =
      { real := 2, imaginary := 2 } := by
  have hw2 : (width : Real) ≠ 0 := by exact_mod_cast hw.ne'
  have hh2 : (height : Real) ≠ 0 := by exact_mod_cast hh.ne'
  simp only [GetComplexFromPixel, Complex.mk.injEq]
  constructor
  · field_simp; ring
  · field_simp; ring

/-- C10, as the code has it: at `c = 2+2i` (`width = 3`, `height = 2`, `x = 4`,
`y = 3`) with the default `maxIterations = 128` the evaluator returns `4`,
not `0`. -/
theorem GetMandelbrotPointIterations_default_ne_zero :
    GetComplexFromPixel 4 3 3 2 = { real := 2, imaginary := 2 } ∧
    GetMandelbrotPointIterations 4 3 3 2 128 = 4 ∧
    ¬ GetMandelbrotPointIterations 4 3 3 2 128 = 0 := by
  have hc : GetComplexFromPixel 4 3 3 2 = { real := 2, imaginary := 2 } := by
    simp only [GetComplexFromPixel, Complex.mk.injEq]
    norm_num
  have h : GetMandelbrotPointIterations 4 3 3 2 128 = min 128 4 :=
    evaluator_eq_min 4 3 3 2 128 4 (by rw [hc]; exact orbit_two_two.1)
      (by rw [hc]; exact orbit_two_two.2)
  refine ⟨hc, h, ?_⟩
  rw [h]
  decide

/-- C10 amended: for `width > 0` and `height > 0`, at the pixel
`x = 4·width/3`, `y = 3·height/2`, which maps to `c = 2+2i`, the evaluator
returns `min(maxIterations, 4)`: `4` for every `maxIterations ≥ 4`, so also
for the default `128`, and `0` only for `maxIterations = 0`. -/
theorem GetMandelbrotPointIterations_eq_min_four (width height maxIterations : Nat)
    (hw : 0 < width) (hh : 0 < height) :
    GetMandelbrotPointIterations (4 * (width : Real) / 3) (3 * (height : Real) / 2)
      width height maxIterations = min maxIterations 4 ∧
    (4 ≤ maxIterations →
      GetMandelbrotPointIterations (4 * (width : Real) / 3) (3 * (height : Real) / 2)
        width height maxIterations = 4) ∧
    (GetMandelbrotPointIterations (4 * (width : Real) / 3) (3 * (height : Real) / 2)
      width height maxIterations = 0 ↔ maxIterations = 0) := by
  have h : GetMandelbrotPointIterations (4 * (width : Real) / 3) (3 * (height : Real) / 2)
      width height maxIterations = min maxIterations 4 :=
    evaluator_eq_min _ _ width height maxIterations 4
      (by rw [pixel_two_two width height hw hh]; exact orbit_two_two.1)
      (by rw [pixel_two_two width height hw hh]; exact orbit_two_two.2)
  refine ⟨h, ?_, ?_⟩
  · intro h4
    rw [h]
    omega
  · rw [h]
    omega

/-- Witness of C10 amended on a `3 × 2` image with `maxIterations = 128`. -/
theorem GetMandelbrotPointIterations_eq_min_four_witness :
    (0 < 3 ∧ 0 < 2) ∧
    GetMandelbrotPointIterations (4 * ((3 : Nat) : Real) / 3) (3 * ((2 : Nat) : Real) / 2)
      3 2 128 = min 128 4 :=
  ⟨⟨by decide, by decide⟩,
    (GetMandelbrotPointIterations_eq_min_four 3 2 128 (by decide) (by decide)).1⟩

/-! ## Color.h: the operators -/

/-- The six inequalities between the index parameters of a permutation. -/
theorem Color.IsPermutation.ne :
    ∀ {R G B A : Fin 4}, Color.IsPermutation R G B A →
      R ≠ G ∧ R ≠ B ∧ R ≠ A ∧ G ≠ B ∧ G ≠ A ∧ B ≠ A := by
  unfold Color.IsPermutation
  decide

/-- Every position of the array is the position of one of the four channels
when the index parameters are a permutation. -/
theorem Color.IsPermutation.cover :
    ∀ {R G B A : Fin 4}, Color.IsPermutation R G B A →
      ∀ i : Fin 4, i = R ∨ i = G ∨ i = B ∨ i = A := by
  unfold Color.IsPermutation
  decide

section ColorLemmas

variable {T : Type} {R G B A : Fin 4}

/-- The four getters of `self += color` when the index parameters of `self` are
a permutation. -/
theorem Color.opAddAssign_getters [Add T] {R2 G2 B2 A2 : Fin 4}
    (hp : Color.IsPermutation R G B A)
    (self : Color T R G B A) (color : Color T R2 G2 B2 A2) :
    (self.opAddAssign color).GetRed = self.GetRed + color.GetRed ∧
    (self.opAddAssign color).GetGreen = self.GetGreen + color.GetGreen ∧
    (self.opAddAssign color).GetBlue = self.GetBlue + color.GetBlue ∧
    (self.opAddAssign color).GetAlpha = self.GetAlpha + color.GetAlpha := by
  obtain ⟨h1, h2, h3, h4, h5, h6⟩ := hp.ne
  simp only [Color.opAddAssign, Color.SetRed, Color.SetGreen, Color.SetBlue, Color.SetAlpha,
    Color.GetRed, Color.GetGreen, Color.GetBlue, Color.GetAlpha, Function.update_apply]
  simp [h1, h2, h3, h4, h5, h6, h1.symm, h2.symm, h3.symm, h4.symm, h5.symm, h6.symm]

/-- The four getters of `self *= val` when the index parameters of `self` are a
permutation. -/
theorem Color.opMulAssign_getters [Mul T] (hp : Color.IsPermutation R G B A)
    (self : Color T R G B A) (val : T) :
    (self.opMulAssign val).GetRed = self.GetRed * val ∧
    (self.opMulAssign val).GetGreen = self.GetGreen * val ∧
    (self.opMulAssign val).GetBlue = self.GetBlue * val ∧
    (self.opMulAssign val).GetAlpha = self.GetAlpha * val := by
  obtain ⟨h1, h2, h3, h4, h5, h6⟩ := hp.ne
  simp only [Color.opMulAssign, Color.SetRed, Color.SetGreen, Color.SetBlue, Color.SetAlpha,
    Color.GetRed, Color.GetGreen, Color.GetBlue, Color.GetAlpha, Function.update_apply]
  simp [h1, h2, h3, h4, h5, h6, h1.symm, h2.symm, h3.symm, h4.symm, h5.symm, h6.symm]

/-- The copy `ret` built by `operator +` and `operator *` before the compound
assignment has the getters of `self` when the index parameters are a
permutation. -/
theorem Color.copy_getters [Zero T] (hp : Color.IsPermutation R G B A)
    (self : Color T R G B A) :
    (((((Color.valueInit : Color T R G B A).SetRed self.GetRed).SetGreen
        self.GetGreen).SetBlue self.GetBlue).SetAlpha self.GetAlpha) = self := by
  obtain ⟨h1, h2, h3, h4, h5, h6⟩ := hp.ne
  apply Color.ext
  funext i
  simp only [Color.valueInit, Color.SetRed, Color.SetGreen, Color.SetBlue, Color.SetAlpha,
    Color.GetRed, Color.GetGreen, Color.GetBlue, Color.GetAlpha, Function.update_apply]
  rcases hp.cover i with h | h | h | h <;> subst h <;>
    simp [h1, h2, h3, h4, h5, h6, h1.symm, h2.symm, h3.symm, h4.symm, h5.symm, h6.symm]

/-- The colour returned by `operator +` is `self += color` run on a copy of
`self`, for a permutation. -/
theorem Color.opAdd_snd [Zero T] [Add T] {R2 G2 B2 A2 : Fin 4}
    (hp : Color.IsPermutation R G B A)
    (self : Color T R G B A) (color : Color T R2 G2 B2 A2) :
    (self.opAdd color).2 = self.opAddAssign color := by
  simp only [Color.opAdd]
  rw [Color.copy_getters hp]

/-- The colour returned by `operator *` is `self *= val` run on a copy of
`self`, for a permutation. -/
theorem Color.opMul_snd [Zero T] [Mul T] (hp : Color.IsPermutation R G B A)
    (self : Color T R G B A) (val : T) :
    (self.opMul val).2 = self.opMulAssign val := by
  simp only [Color.opMul]
  rw [Color.copy_getters hp]

/-- Position by position, `a + b` of two colours of one permutation is the sum. -/
theorem Color.add_data [Zero T] [Add T] (hp : Color.IsPermutation R G B A)
    (a b : Color T R G B A) (i : Fin 4) : (a + b).data i = a.data i + b.data i := by
  have h := Color.opAddAssign_getters hp a b
  simp only [Color.GetRed, Color.GetGreen, Color.GetBlue, Color.GetAlpha] at h
  show ((a.opAdd b).2).data i = _
  rw [Color.opAdd_snd hp]
  rcases hp.cover i with h2 | h2 | h2 | h2 <;> subst h2
  · exact h.1
  · exact h.2.1
  · exact h.2.2.1
  · exact h.2.2.2

/-- Position by position, `a * val` of a colour of a permutation is the product. -/
theorem Color.mul_data [Zero T] [Mul T] (hp : Color.IsPermutation R G B A)
    (a : Color T R G B A) (val : T) (i : Fin 4) : (a * val).data i = a.data i * val := by
  have h := Color.opMulAssign_getters hp a val
  simp only [Color.GetRed, Color.GetGreen, Color.GetBlue, Color.GetAlpha] at h
  show ((a.opMul val).2).data i = _
  rw [Color.opMul_snd hp]
  rcases hp.cover i with h2 | h2 | h2 | h2 <;> subst h2
  · exact h.1
  · exact h.2.1
  · exact h.2.2.1
  · exact h.2.2.2

end ColorLemmas

/-! ## Claims on `Color` and on the colour mapper -/

/-- C2: for every iteration count `i`, bound `maxIterations`, palette of size
`n ≥ 1` and background colour `bg`, the lambda `GetColor` of `Render` returns
`palette[i mod n]` when `i < maxIterations` and `bg` otherwise; with
`maxIterations = 10` and `n = 3` it returns `bg` for `i = 10` and
`palette[1]` for `i = 7`. -/
theorem Render.GetColor_rule {ColorType : Type} {R G B A : Fin 4} {n : Nat} (hn : 0 < n)
    (i maxIterations : Nat) (bg : Color ColorType R G B A)
    (palette : Fin n → Color ColorType R G B A) :
    (i < maxIterations →
      Render.GetColor hn i maxIterations bg palette = palette ⟨i % n, Nat.mod_lt i hn⟩) ∧
    (¬ i < maxIterations → Render.GetColor hn i maxIterations bg palette = bg) ∧
    (∀ (h3 : 0 < 3) (palette3 : Fin 3 → Color ColorType R G B A),
      Render.GetColor h3 10 10 bg palette3 = bg ∧
      Render.GetColor h3 7 10 bg palette3 = palette3 1) := by
  refine ⟨?_, ?_, ?_⟩
  · intro h
    simp [Render.GetColor, h]
  · intro h
    simp [Render.GetColor, h]
  · intro h3 palette3
    constructor
    · simp [Render.GetColor]
    · simp only [Render.GetColor]
      rw [if_pos (by decide)]
      rfl

/-- Witness of C2: a palette of three `RGBAColor` entries, `maxIterations = 10`,
iteration count `7`. -/
theorem Render.GetColor_rule_witness :
    (0 < 3 ∧ 7 < 10) ∧
    Render.GetColor (Nat.succ_pos 2) 7 10 (⟨![0, 0, 0, 1]⟩ : RGBAColor Real)
        ![⟨![1, 0, 0, 1]⟩, ⟨![0, 1, 0, 1]⟩, ⟨![0, 0, 1, 1]⟩] =
      (![⟨![1, 0, 0, 1]⟩, ⟨![0, 1, 0, 1]⟩, ⟨![0, 0, 1, 1]⟩] : Fin 3 → RGBAColor Real)
        ⟨7 % 3, Nat.mod_lt 7 (Nat.succ_pos 2)⟩ :=
  ⟨⟨by decide, by decide⟩,
    (Render.GetColor_rule (Nat.succ_pos 2) 7 10 (⟨![0, 0, 0, 1]⟩ : RGBAColor Real)
      ![⟨![1, 0, 0, 1]⟩, ⟨![0, 1, 0, 1]⟩, ⟨![0, 0, 1, 1]⟩]).1 (by decide)⟩

/-- C7: for a colour `a` whose index parameters are a permutation of
`{0,1,2,3}` and a colour `b` of any ordering, `a + b` and `a += b` yield a
colour in the ordering of `a` whose red, green, blue and alpha, read through the
getters, are `a.red + b.red`, `a.green + b.green`, `a.blue + b.blue` and
`a.alpha + b.alpha`; `operator +` leaves `a` as it is (`b` is a reference to
const that the body only reads). In exact arithmetic
`{0.2,0.3,0.4,1.0} + {0.1,0.1,0.1,0.0} = {0.3,0.4,0.5,1.0}`, and an `RGBAColor`
plus a `BGRAColor` adds channel to channel, not position to position. -/
theorem Color.add_channelwise {T : Type} [Zero T] [Add T] {R G B A R2 G2 B2 A2 : Fin 4}
    (hp : Color.IsPermutation R G B A) (_hp2 : Color.IsPermutation R2 G2 B2 A2)
    (a : Color T R G B A) (b : Color T R2 G2 B2 A2) :
    ((a + b).GetRed = a.GetRed + b.GetRed ∧ (a + b).GetGreen = a.GetGreen + b.GetGreen ∧
      (a + b).GetBlue = a.GetBlue + b.GetBlue ∧ (a + b).GetAlpha = a.GetAlpha + b.GetAlpha) ∧
    ((a.opAddAssign b).GetRed = a.GetRed + b.GetRed ∧
      (a.opAddAssign b).GetGreen = a.GetGreen + b.GetGreen ∧
      (a.opAddAssign b).GetBlue = a.GetBlue + b.GetBlue ∧
      (a.opAddAssign b).GetAlpha = a.GetAlpha + b.GetAlpha) ∧
    (a.opAdd b).1 = a ∧
    ((⟨![0.2, 0.3, 0.4, 1.0]⟩ : RGBAColor Real) + (⟨![0.1, 0.1, 0.1, 0.0]⟩ : RGBAColor Real) =
      ⟨![0.3, 0.4, 0.5, 1.0]⟩) ∧
    ((⟨![0.2, 0.3, 0.4, 1.0]⟩ : RGBAColor Real) + (⟨![0.3, 0.2, 0.1, 0.0]⟩ : BGRAColor Real) =
      ⟨![0.3, 0.5, 0.7, 1.0]⟩) := by
  have hadd : (a + b) = a.opAddAssign b := Color.opAdd_snd hp a b
  refine ⟨?_, Color.opAddAssign_getters hp a b, rfl, ?_, ?_⟩
  · rw [hadd]
    exact Color.opAddAssign_getters hp a b
  · apply Color.ext
    funext i
    rw [Color.add_data (by decide)]
    fin_cases i <;> norm_num
  · have hq : Color.IsPermutation (0 : Fin 4) 1 2 3 := by decide
    have h := Color.opAddAssign_getters hq (⟨![0.2, 0.3, 0.4, 1.0]⟩ : RGBAColor Real)
      (⟨![0.3, 0.2, 0.1, 0.0]⟩ : BGRAColor Real)
    have hadd2 : (⟨![0.2, 0.3, 0.4, 1.0]⟩ : RGBAColor Real) +
        (⟨![0.3, 0.2, 0.1, 0.0]⟩ : BGRAColor Real) =
        (⟨![0.2, 0.3, 0.4, 1.0]⟩ : RGBAColor Real).opAddAssign
          (⟨![0.3, 0.2, 0.1, 0.0]⟩ : BGRAColor Real) := Color.opAdd_snd hq _ _
    rw [hadd2]
    simp only [Color.GetRed, Color.GetGreen, Color.GetBlue, Color.GetAlpha] at h
    obtain ⟨h1, h2, h3, h4⟩ := h
    apply Color.ext
    funext i
    fin_cases i
    · refine h1.trans ?_; norm_num
    · refine h2.trans ?_; norm_num
    · refine h3.trans ?_; norm_num
    · refine h4.trans ?_; norm_num

/-- Witness of C7: an `ARGBColor` plus an `ABGRColor`. -/
theorem Color.add_channelwise_witness :
    (Color.IsPermutation (3 : Fin 4) 0 1 2 ∧ Color.IsPermutation (3 : Fin 4) 2 1 0) ∧
    ((⟨![1, 2, 3, 4]⟩ : ARGBColor Real) + (⟨![10, 20, 30, 40]⟩ : ABGRColor Real)).GetRed =
      (⟨![1, 2, 3, 4]⟩ : ARGBColor Real).GetRed + (⟨![10, 20, 30, 40]⟩ : ABGRColor Real).GetRed :=
  ⟨⟨by decide, by decide⟩,
    (Color.add_channelwise (by decide) (by decide) (⟨![1, 2, 3, 4]⟩ : ARGBColor Real)
      (⟨![10, 20, 30, 40]⟩ : ABGRColor Real)).1.1⟩

/-- C8: for a colour `a` whose index parameters are a permutation of
`{0,1,2,3}` and a scalar `s`, in exact arithmetic `a * s` and `a *= s` yield a
colour in the same ordering whose four channels, alpha included, are the
channels of `a` times `s`; `operator *` leaves `a` as it is.
`{0.2,0.4,0.6,1.0}` scaled by `0.5` is `{0.1,0.2,0.3,0.5}`. -/
theorem Color.mul_channelwise {T : Type} [Zero T] [Mul T] {R G B A : Fin 4}
    (hp : Color.IsPermutation R G B A) (a : Color T R G B A) (s : T) :
    ((a * s).GetRed = a.GetRed * s ∧ (a * s).GetGreen = a.GetGreen * s ∧
      (a * s).GetBlue = a.GetBlue * s ∧ (a * s).GetAlpha = a.GetAlpha * s) ∧
    ((a.opMulAssign s).GetRed = a.GetRed * s ∧ (a.opMulAssign s).GetGreen = a.GetGreen * s ∧
      (a.opMulAssign s).GetBlue = a.GetBlue * s ∧
      (a.opMulAssign s).GetAlpha = a.GetAlpha * s) ∧
    (a.opMul s).1 = a ∧
    ((⟨![0.2, 0.4, 0.6, 1.0]⟩ : RGBAColor Real) * (0.5 : Real) =
      ⟨![0.1, 0.2, 0.3, 0.5]⟩) ∧
    ((⟨![0.2, 0.4, 0.6, 1.0]⟩ : RGBAColor Real).opMulAssign (0.5 : Real) =
      ⟨![0.1, 0.2, 0.3, 0.5]⟩) := by
  have hmul : (a * s) = a.opMulAssign s := Color.opMul_snd hp a s
  have hq : Color.IsPermutation (0 : Fin 4) 1 2 3 := by decide
  have hex : (⟨![0.2, 0.4, 0.6, 1.0]⟩ : RGBAColor Real) * (0.5 : Real) =
      ⟨![0.1, 0.2, 0.3, 0.5]⟩ := by
    apply Color.ext
    funext i
    rw [Color.mul_data hq]
    fin_cases i <;> norm_num
  refine ⟨?_, Color.opMulAssign_getters hp a s, rfl, hex, ?_⟩
  · rw [hmul]
    exact Color.opMulAssign_getters hp a s
  · rw [← hex]
    exact (Color.opMul_snd hq _ _).symm

/-- Witness of C8: a `BGRAColor` scaled by `1/2`. -/
theorem Color.mul_channelwise_witness :
    Color.IsPermutation (2 : Fin 4) 1 0 3 ∧
    ((⟨![1, 2, 3, 4]⟩ : BGRAColor Real) * (1 / 2 : Real)).GetAlpha =
      (⟨![1, 2, 3, 4]⟩ : BGRAColor Real).GetAlpha * (1 / 2 : Real) :=
  ⟨by decide,
    (Color.mul_channelwise (by decide) (⟨![1, 2, 3, 4]⟩ : BGRAColor Real) (1 / 2 : Real)).1.2.2.2⟩

/-! ## Mandelbrot.h: the loops of the renderer -/

/-- The inner loop over `x` keeps the length of the buffer. -/
theorem Render.row_length {α : Type} (W y : Nat) (value : Nat → Nat → α) (n : Nat)
    (result : List α) :
    ((List.range n).foldl (fun result x => result.set (x + (y * W)) (value x y))
      result).length = result.length := by
  induction n with
  | zero => rfl
  | succ n ih =>
    rw [List.range_succ, List.foldl_append]
    simp only [List.foldl_cons, List.foldl_nil, List.length_set]
    exact ih

/-- The buffer after `n` trips of the inner loop over `x` in row `y`. -/
theorem Render.row_getElem? {α : Type} (W y : Nat) (value : Nat → Nat → α) (n : Nat)
    (result : List α) (j : Nat) :
    ((List.range n).foldl (fun result x => result.set (x + (y * W)) (value x y)) result)[j]? =
      if y * W ≤ j ∧ j < y * W + n then
        (if j < result.length then some (value (j - y * W) y) else none)
      else result[j]? := by
  induction n with
  | zero =>
    have h : ¬ (y * W ≤ j ∧ j < y * W + 0) := by omega
    rw [if_neg h]
    rfl
  | succ n ih =>
    rw [List.range_succ, List.foldl_append]
    simp only [List.foldl_cons, List.foldl_nil]
    rw [List.getElem?_set, Render.row_length, ih]
    by_cases hj : n + y * W = j
    · have h1 : y * W ≤ j ∧ j < y * W + (n + 1) := by omega
      have h2 : j - y * W = n := by omega
      rw [if_pos hj, if_pos h1, h2, hj]
    · rw [if_neg hj]
      by_cases h1 : y * W ≤ j ∧ j < y * W + n
      · have h2 : y * W ≤ j ∧ j < y * W + (n + 1) := by omega
        rw [if_pos h1, if_pos h2]
      · have h2 : ¬ (y * W ≤ j ∧ j < y * W + (n + 1)) := by omega
        rw [if_neg h1, if_neg h2]

/-- The two nested loops keep the length of the buffer. -/
theorem Render.filled_length {α : Type} (W H : Nat) (value : Nat → Nat → α) (result : List α) :
    (Render.filled W H value result).length = result.length := by
  unfold Render.filled
  induction H with
  | zero => rfl
  | succ H ih =>
    rw [List.range_succ, List.foldl_append]
    simp only [List.foldl_cons, List.foldl_nil]
    rw [Render.row_length]
    exact ih

/-- The buffer after the two nested loops: every index below `H * W` that the
buffer has holds the value of its pixel, every other index is as before. -/
theorem Render.filled_getElem? {α : Type} (W H : Nat) (value : Nat → Nat → α) (result : List α)
    (j : Nat) :
    (Render.filled W H value result)[j]? =
      if j < H * W then (if j < result.length then some (value (j % W) (j / W)) else none)
      else result[j]? := by
  induction H with
  | zero =>
    have h : ¬ j < 0 * W := by omega
    rw [if_neg h]
    rfl
  | succ H ih =>
    have hstep : Render.filled W (H + 1) value result =
        (List.range W).foldl (fun result x => result.set (x + (H * W)) (value x H))
          (Render.filled W H value result) := by
      unfold Render.filled
      rw [List.range_succ, List.foldl_append]
      rfl
    rw [hstep, Render.row_getElem?, Render.filled_length, ih]
    have hmul : (H + 1) * W = H * W + W := Nat.succ_mul H W
    by_cases h1 : H * W ≤ j ∧ j < H * W + W
    · have h2 : j < (H + 1) * W := by omega
      have hW : 0 < W := by omega
      have hj : j = (j - H * W) + H * W := by omega
      have hlt : j - H * W < W := by omega
      have hmod : j % W = j - H * W := by
        rw [hj, Nat.add_mul_mod_self_right, Nat.mod_eq_of_lt hlt]
        omega
      have hdiv : j / W = H := by
        rw [hj, Nat.add_mul_div_right _ _ hW, Nat.div_eq_of_lt hlt]
        omega
      rw [if_pos h1, if_pos h2, hmod, hdiv]
    · rw [if_neg h1]
      by_cases h3 : j < H * W
      · have h2 : j < (H + 1) * W := by omega
        rw [if_pos h3, if_pos h2]
      · have h2 : ¬ j < (H + 1) * W := by omega
        rw [if_neg h3, if_neg h2]

/-- The entry of pixel `(x, y)` after the two nested loops on a buffer that has
room for the `W * H` pixels. -/
theorem Render.filled_pixel {α : Type} (W H : Nat) (value : Nat → Nat → α) (result : List α)
    (hlen : W * H ≤ result.length) (x y : Nat) (hx : x < W) (hy : y < H) :
    (Render.filled W H value result)[x + (y * W)]? = some (value x y) := by
  have h1 : (y + 1) * W ≤ H * W := Nat.mul_le_mul_right W hy
  have h2 : (y + 1) * W = y * W + W := Nat.succ_mul y W
  have h3 : W * H = H * W := Nat.mul_comm W H
  have hlt : x + y * W < H * W := by omega
  have hW : 0 < W := by omega
  rw [Render.filled_getElem?, if_pos hlt, if_pos (by omega), Nat.add_mul_mod_self_right,
    Nat.mod_eq_of_lt hx, Nat.add_mul_div_right _ _ hW, Nat.div_eq_of_lt hx, Nat.zero_add]

/-- The entries from `W * H` on are as before after the two nested loops. -/
theorem Render.filled_rest {α : Type} (W H : Nat) (value : Nat → Nat → α) (result : List α)
    (j : Nat) (hj : W * H ≤ j) : (Render.filled W H value result)[j]? = result[j]? := by
  have h3 : W * H = H * W := Nat.mul_comm W H
  rw [Render.filled_getElem?, if_neg (by omega)]

/-! ## Rounding -/

/-- The rounding of a number that is closer than `1/2` to the integer `m`. -/
theorem roundHalfEven_eq (t : ℚ) (m : ℤ) (h : |t - m| < 1 / 2) : roundHalfEven t = m := by
  have h1 := abs_lt.1 h
  unfold roundHalfEven
  by_cases hm : (m : ℚ) ≤ t
  · have hf : ⌊t⌋ = m := by
      rw [Int.floor_eq_iff]
      constructor
      · exact hm
      · linarith [h1.2]
    rw [hf, if_pos h1.2]
  · have hf : ⌊t⌋ = m - 1 := by
      rw [Int.floor_eq_iff]
      push_cast
      constructor
      · linarith [h1.1]
      · linarith [not_le.1 hm]
    rw [hf]
    push_cast
    have h2 : ¬ t - ((m : ℚ) - 1) < 1 / 2 := by linarith [h1.1]
    have h3 : 1 / 2 < t - ((m : ℚ) - 1) := by linarith [h1.1]
    rw [if_neg h2, if_pos h3]
    ring

/-- The binary exponent of a number between two consecutive powers of two. -/
theorem log_two_eq (r : ℚ) (e : ℤ) (h1 : (2 : ℚ) ^ e ≤ r) (h2 : r < 2 ^ (e + 1)) :
    Int.log 2 r = e := by
  have hr : 0 < r := lt_of_lt_of_le (by positivity) h1
  have hb : 1 < (2 : ℕ) := by norm_num
  have a1 : e ≤ Int.log 2 r := (Int.zpow_le_iff_le_log hb hr).1 (by exact_mod_cast h1)
  have a2 : Int.log 2 r < e + 1 := (Int.lt_zpow_iff_log_lt hb hr).1 (by exact_mod_cast h2)
  omega

/-- A rounding certificate: the exponent `e` of `q` and the integer `m` nearest
to the scaled value determine the rounded value. -/
theorem roundTo_eq (p : Nat) (q : ℚ) (e m : ℤ) (h1 : (2 : ℚ) ^ e ≤ |q|)
    (h2 : |q| < 2 ^ (e + 1)) (h3 : |q / 2 ^ (e - ((p : ℤ) - 1)) - m| < 1 / 2) :
    roundTo p q = m * 2 ^ (e - ((p : ℤ) - 1)) := by
  have hq : q ≠ 0 := by
    intro h0
    rw [h0, abs_zero] at h1
    exact absurd h1 (not_le.2 (by positivity))
  unfold roundTo
  rw [if_neg hq, log_two_eq |q| e h1 h2, roundHalfEven_eq _ m h3]

/-- A rounding certificate for a positive number. -/
theorem roundTo_eq_pos (p : Nat) (q : ℚ) (e m : ℤ) (h1 : (2 : ℚ) ^ e ≤ q)
    (h2 : q < 2 ^ (e + 1)) (h3 : -(1 / 2) < q / 2 ^ (e - ((p : ℤ) - 1)) - m)
    (h4 : q / 2 ^ (e - ((p : ℤ) - 1)) - m < 1 / 2) :
    roundTo p q = m * 2 ^ (e - ((p : ℤ) - 1)) := by
  have hq : 0 < q := lt_of_lt_of_le (by positivity) h1
  apply roundTo_eq
  · rw [abs_of_pos hq]; exact h1
  · rw [abs_of_pos hq]; exact h2
  · exact abs_lt.2 ⟨h3, h4⟩

/-- A rounding certificate for a negative number. -/
theorem roundTo_eq_neg (p : Nat) (q : ℚ) (e m : ℤ) (h1 : (2 : ℚ) ^ e ≤ -q)
    (h2 : -q < 2 ^ (e + 1)) (h3 : -(1 / 2) < q / 2 ^ (e - ((p : ℤ) - 1)) - m)
    (h4 : q / 2 ^ (e - ((p : ℤ) - 1)) - m < 1 / 2) :
    roundTo p q = m * 2 ^ (e - ((p : ℤ) - 1)) := by
  have hq : q < 0 := by
    have : 0 < -q := lt_of_lt_of_le (by positivity) h1
    linarith
  apply roundTo_eq
  · rw [abs_of_neg hq]; exact h1
  · rw [abs_of_neg hq]; exact h2
  · exact abs_lt.2 ⟨h3, h4⟩

/-- A number `m·2^k` whose integer `m` fits the significand is not changed by the
rounding. -/
theorem roundTo_dyadic (p : Nat) (m k : ℤ) (hm : |m| < 2 ^ p) :
    roundTo p ((m : ℚ) * 2 ^ k) = (m : ℚ) * 2 ^ k := by
  by_cases h0 : m = 0
  · subst h0
    simp [roundTo]
  have h2k : (0 : ℚ) < 2 ^ k := by positivity
  have hq : (m : ℚ) * 2 ^ k ≠ 0 := mul_ne_zero (by exact_mod_cast h0) h2k.ne'
  have habs : |(m : ℚ) * 2 ^ k| = |(m : ℚ)| * 2 ^ k := by
    rw [abs_mul, abs_of_pos h2k]
  have hpos : 0 < |(m : ℚ) * 2 ^ k| := abs_pos.2 hq
  have hlt : |(m : ℚ) * 2 ^ k| < ((2 : ℕ) : ℚ) ^ ((p : ℤ) + k) := by
    rw [habs, zpow_add₀ (by norm_num)]
    apply mul_lt_mul_of_pos_right _ (by exact_mod_cast h2k)
    have : ((|m| : ℤ) : ℚ) < ((2 ^ p : ℤ) : ℚ) := by exact_mod_cast hm
    push_cast at this
    simpa using this
  have hlog : Int.log 2 |(m : ℚ) * 2 ^ k| < (p : ℤ) + k :=
    (Int.lt_zpow_iff_log_lt (by norm_num) hpos).1 hlt
  obtain ⟨j, hj⟩ : ∃ j : ℕ, (j : ℤ) = k - (Int.log 2 |(m : ℚ) * 2 ^ k| - ((p : ℤ) - 1)) :=
    ⟨(k - (Int.log 2 |(m : ℚ) * 2 ^ k| - ((p : ℤ) - 1))).toNat, Int.toNat_of_nonneg (by omega)⟩
  have hk : k = (j : ℤ) + (Int.log 2 |(m : ℚ) * 2 ^ k| - ((p : ℤ) - 1)) := by omega
  have hpow : (2 : ℚ) ^ k =
      2 ^ j * 2 ^ (Int.log 2 |(m : ℚ) * 2 ^ k| - ((p : ℤ) - 1)) := by
    conv_lhs => rw [hk]
    rw [zpow_add₀ (by norm_num), zpow_natCast]
  have hscaled : (m : ℚ) * 2 ^ k / 2 ^ (Int.log 2 |(m : ℚ) * 2 ^ k| - ((p : ℤ) - 1)) =
      ((m * 2 ^ j : ℤ) : ℚ) := by
    have hne : (2 : ℚ) ^ (Int.log 2 |(m : ℚ) * 2 ^ k| - ((p : ℤ) - 1)) ≠ 0 := by positivity
    rw [div_eq_iff hne]
    push_cast
    rw [mul_assoc, ← hpow]
  unfold roundTo
  rw [if_neg hq, hscaled, roundHalfEven_eq _ (m * 2 ^ j) (by simp)]
  push_cast
  rw [mul_assoc, ← hpow]

/-- The sum `x + 0.5` of an `int` and the `double` `0.5` is exact. -/
theorem Render.plus_half (x : Nat) (hx : x ≤ INT_MAX) : Render.plus x 0.5 = (x : Real) + 0.5 := by
  have h : (x : Real) + 0.5 = (((2 * x + 1 : ℕ) : ℤ) : ℚ) * 2 ^ (-1 : ℤ) := by
    push_cast
    norm_num
    ring
  unfold Render.plus toDouble
  rw [h]
  apply roundTo_dyadic
  unfold INT_MAX at hx
  rw [abs_of_nonneg (by positivity)]
  norm_cast
  omega

/-- The difference `x - 0.5` of an `int` and the `double` `0.5` is exact. -/
theorem Render.minus_half (x : Nat) (hx : x ≤ INT_MAX) :
    Render.minus x 0.5 = (x : Real) - 0.5 := by
  have h : (x : Real) - 0.5 = ((2 * (x : ℤ) - 1 : ℤ) : ℚ) * 2 ^ (-1 : ℤ) := by
    push_cast
    norm_num
    ring
  unfold Render.minus toDouble
  rw [h]
  apply roundTo_dyadic
  unfold INT_MAX at hx
  rw [abs_lt]
  constructor <;> norm_num <;> omega

/-- One trip of a loop on an `int` counter. -/
theorem Render.forInt_succ {σ : Type} (bound : Nat) (body : Nat → σ → Option σ)
    (fuel k : Nat) (s : σ) :
    Render.forInt bound body (fuel + 1) k s =
      if k < bound then
        match body k s with
        | none => none
        | some s' =>
          if k = INT_MAX then none else Render.forInt bound body fuel (k + 1) s'
      else some s := rfl

/-- A loop whose bound does not exceed `INT_MAX` and whose body has a value runs
the body for every counter value from `k` up to the bound. -/
theorem Render.forInt_eq {σ : Type} (bound : Nat) (body : Nat → σ → Option σ)
    (f : Nat → σ → σ) (hbody : ∀ k s, body k s = some (f k s)) (hb : bound ≤ INT_MAX) :
    ∀ (d fuel k : Nat) (s : σ), k + d = bound → d < fuel →
      Render.forInt bound body fuel k s =
        some ((List.range' k d).foldl (fun s j => f j s) s) := by
  intro d
  induction d with
  | zero =>
    intro fuel k s hk hf
    obtain ⟨fuel, rfl⟩ : ∃ n, fuel = n + 1 := ⟨fuel - 1, by omega⟩
    have hnot : ¬ k < bound := by omega
    rw [Render.forInt_succ, if_neg hnot]
    rfl
  | succ d ih =>
    intro fuel k s hk hf
    obtain ⟨fuel, rfl⟩ : ∃ n, fuel = n + 1 := ⟨fuel - 1, by omega⟩
    have hlt : k < bound := by omega
    have hne : k ≠ INT_MAX := by omega
    rw [Render.forInt_succ, if_pos hlt, hbody]
    simp only [if_neg hne]
    rw [ih fuel (k + 1) (f k s) (by omega) (by omega)]
    rfl

/-- A loop whose bound exceeds `INT_MAX` increments a counter that holds
`INT_MAX`: it has no value. -/
theorem Render.forInt_overflow {σ : Type} (bound : Nat) (body : Nat → σ → Option σ)
    (hb : INT_MAX < bound) :
    ∀ (fuel k : Nat) (s : σ), k ≤ INT_MAX → Render.forInt bound body fuel k s = none := by
  intro fuel
  induction fuel with
  | zero =>
    intro k s _
    rfl
  | succ fuel ih =>
    intro k s hk
    have hlt : k < bound := by omega
    rw [Render.forInt_succ, if_pos hlt]
    cases body k s with
    | none => rfl
    | some s' =>
      by_cases hmax : k = INT_MAX
      · simp [hmax]
      · simp only [if_neg hmax]
        exact ih (k + 1) s' (by omega)

/-- With `Width` and `Height` up to `INT_MAX` the two nested loops have a value,
the buffer with every pixel assigned. -/
theorem Render.fill_eq {α : Type} (W H : Nat) (value : Nat → Nat → α) (result : List α)
    (hW : W ≤ INT_MAX) (hH : H ≤ INT_MAX) :
    Render.fill W H value result = some (Render.filled W H value result) := by
  have hrow : ∀ (y : Nat) (result : List α),
      Render.forInt W (fun x result => some (result.set (x + (y * W)) (value x y)))
        (INT_MAX + 1) 0 result =
      some ((List.range W).foldl
        (fun result x => result.set (x + (y * W)) (value x y)) result) := by
    intro y result
    rw [Render.forInt_eq W _ (fun x result => result.set (x + (y * W)) (value x y))
      (fun _ _ => rfl) hW W (INT_MAX + 1) 0 result (by omega) (by omega)]
    simp only [List.range_eq_range']
  unfold Render.fill Render.filled
  rw [Render.forInt_eq H _ _ hrow hH H (INT_MAX + 1) 0 result (by omega) (by omega)]
  simp only [List.range_eq_range']

/-- With `Width` beyond `INT_MAX` (and at least one row) or `Height` beyond
`INT_MAX` a counter of the two nested loops overflows: they have no value. -/
theorem Render.fill_overflow {α : Type} (W H : Nat) (value : Nat → Nat → α) (result : List α)
    (h : (INT_MAX < W ∧ 0 < H) ∨ INT_MAX < H) : Render.fill W H value result = none := by
  unfold Render.fill
  by_cases hW : INT_MAX < W
  · by_cases hH : 0 < H
    · have hrow : Render.forInt W
          (fun x result => some (result.set (x + (0 * W)) (value x 0)))
          (INT_MAX + 1) 0 result = none :=
        Render.forInt_overflow W _ hW _ 0 result (Nat.zero_le _)
      rw [Render.forInt_succ, if_pos hH, hrow]
    · have hH2 : INT_MAX < H := by
        rcases h with h | h
        · exact absurd h.2 hH
        · exact h
      exact Render.forInt_overflow H _ hH2 _ 0 result (Nat.zero_le _)
  · have hH2 : INT_MAX < H := by
      rcases h with h | h
      · exact absurd h.1 hW
      · exact h
    exact Render.forInt_overflow H _ hH2 _ 0 result (Nat.zero_le _)

/-! ## Further claims on the evaluator -/

/-- The first iterate of the recurrence is `c`. -/
theorem specOrbit_one (c : Complex Real) : specOrbit c 1 = c := by
  simp [specOrbit, specAdd, specMul]

/-- The iterate `z_0 = 0` is inside the escape radius. -/
theorem specOrbit_zero_lt (c : Complex Real) :
    specMagnitudeSquared (specOrbit c 0) < 1000000 := by
  norm_num [specOrbit, specMagnitudeSquared]

/-- With a bound of at least `1` the evaluator returns at least `1`. -/
theorem evaluator_pos (x y : Real) (width height maxIterations : Nat)
    (hm : 1 ≤ maxIterations) :
    1 ≤ GetMandelbrotPointIterations x y width height maxIterations := by
  obtain ⟨_, a3, _⟩ := evaluator_spec x y width height maxIterations
  by_contra hcon
  have h0 : GetMandelbrotPointIterations x y width height maxIterations = 0 := by omega
  rw [h0] at a3
  rcases a3 with a3 | a3
  · omega
  · exact absurd (specOrbit_zero_lt _) (not_lt.2 a3)

/-- With the bound `1` the evaluator returns `1` at every coordinate. -/
theorem evaluator_one (x y : Real) (width height : Nat) :
    GetMandelbrotPointIterations x y width height 1 = 1 := by
  have h1 := evaluator_pos x y width height 1 (le_refl 1)
  have h2 := (evaluator_spec x y width height 1).1
  omega

/-- Two coordinates whose recurrences have the same squared magnitudes get the
same iteration count. -/
theorem evaluator_congr (x1 y1 x2 y2 : Real) (width height maxIterations : Nat)
    (h : ∀ k, specMagnitudeSquared (specOrbit (GetComplexFromPixel x1 y1 width height) k) =
      specMagnitudeSquared (specOrbit (GetComplexFromPixel x2 y2 width height) k)) :
    GetMandelbrotPointIterations x1 y1 width height maxIterations =
      GetMandelbrotPointIterations x2 y2 width height maxIterations := by
  obtain ⟨a2, a3, a4⟩ := evaluator_spec x1 y1 width height maxIterations
  obtain ⟨b2, b3, b4⟩ := evaluator_spec x2 y2 width height maxIterations
  apply le_antisymm
  · by_contra hcon
    rcases b3 with b3 | b3
    · omega
    · have := a4 _ (not_le.1 hcon)
      rw [h] at this
      exact absurd this (not_lt.2 b3)
  · by_contra hcon
    rcases a3 with a3 | a3
    · omega
    · have := b4 _ (not_le.1 hcon)
      rw [← h] at this
      exact absurd this (not_lt.2 a3)

/-- C11 amended: in exact arithmetic, for `width > 0`, `height > 0`, every
coordinate whose complex value `c` has `|c|² ≥ 10^6` and every
`maxIterations ≥ 1`, the evaluator returns exactly `1`: the test on `z = 0`
passes, the test on `z = c` fails. -/
theorem GetMandelbrotPointIterations_far (x y : Real) (width height maxIterations : Nat)
    (_hw : 0 < width) (_hh : 0 < height) (hm : 1 ≤ maxIterations)
    (hc : 1000000 ≤ specMagnitudeSquared (GetComplexFromPixel x y width height)) :
    GetMandelbrotPointIterations x y width height maxIterations = 1 := by
  have h := evaluator_eq_min x y width height maxIterations 1
    (fun k hk => by
      have hk0 : k = 0 := by omega
      rw [hk0]
      exact specOrbit_zero_lt _)
    (by rw [specOrbit_one]; exact hc)
  rw [h]
  omega

/-- Witness of C11 amended: the coordinate `x = 1000`, `y = 0` of a `1 × 1` image maps to
`2998 − i`. -/
theorem GetMandelbrotPointIterations_far_witness :
    (0 < 1 ∧ 1 ≤ 128 ∧
      1000000 ≤ specMagnitudeSquared (GetComplexFromPixel 1000 0 1 1)) ∧
    GetMandelbrotPointIterations 1000 0 1 1 128 = 1 :=
  ⟨⟨by decide, by decide, by norm_num [GetComplexFromPixel, specMagnitudeSquared]⟩,
    GetMandelbrotPointIterations_far 1000 0 1 1 128 (by decide) (by decide) (by decide)
      (by norm_num [GetComplexFromPixel, specMagnitudeSquared])⟩

/-- C16: for `width > 0` and `height > 0`, the evaluator returns `0` if and only
if `maxIterations = 0`, and for every `maxIterations ≥ 1` the result is at
least `1`: the first escape test is made on `z = 0`. -/
theorem GetMandelbrotPointIterations_zero_iff (x y : Real) (width height maxIterations : Nat)
    (_hw : 0 < width) (_hh : 0 < height) :
    (GetMandelbrotPointIterations x y width height maxIterations = 0 ↔ maxIterations = 0) ∧
    (1 ≤ maxIterations → 1 ≤ GetMandelbrotPointIterations x y width height maxIterations) ∧
    (Complex.GetMagnitudeSquared ({ real := 0, imaginary := 0 } : Complex Real) <
      1000 * 1000) := by
  have h2 := (evaluator_spec x y width height maxIterations).1
  refine ⟨⟨?_, ?_⟩, evaluator_pos x y width height maxIterations, ?_⟩
  · intro h0
    by_contra hcon
    have := evaluator_pos x y width height maxIterations (by omega)
    omega
  · intro h0
    omega
  · norm_num [Complex.GetMagnitudeSquared]

/-- Witness of C16 at the coordinate `(4, 3)` of a `3 × 2` image, which maps to
`2+2i`, with `maxIterations = 128`. -/
theorem GetMandelbrotPointIterations_zero_iff_witness :
    (0 < 3 ∧ 0 < 2) ∧ (1 ≤ 128 → 1 ≤ GetMandelbrotPointIterations 4 3 3 2 128) :=
  ⟨⟨by decide, by decide⟩,
    (GetMandelbrotPointIterations_zero_iff 4 3 3 2 128 (by decide) (by decide)).2.1⟩

/-- C17: for `width > 0`, `height > 0` and bounds `m ≤ m'`, the evaluator with
bound `m` returns the minimum of `m` and its result with bound `m'`; the
count is monotone in the bound, and a count below `m` is not changed by
raising the bound. -/
theorem GetMandelbrotPointIterations_bound (x y : Real) (width height m m' : Nat)
    (_hw : 0 < width) (_hh : 0 < height) (hmm : m ≤ m') :
    GetMandelbrotPointIterations x y width height m =
      min m (GetMandelbrotPointIterations x y width height m') ∧
    GetMandelbrotPointIterations x y width height m ≤
      GetMandelbrotPointIterations x y width height m' ∧
    (GetMandelbrotPointIterations x y width height m < m →
      GetMandelbrotPointIterations x y width height m' =
        GetMandelbrotPointIterations x y width height m) := by
  obtain ⟨b2, b3, b4⟩ := evaluator_spec x y width height m'
  have hmin : GetMandelbrotPointIterations x y width height m =
      min m (GetMandelbrotPointIterations x y width height m') := by
    by_cases hcase : m ≤ GetMandelbrotPointIterations x y width height m'
    · rw [evaluator_eq_max x y width height m (fun k hk => b4 k (by omega))]
      omega
    · have hesc : 1000000 ≤ specMagnitudeSquared
          (specOrbit (GetComplexFromPixel x y width height)
            (GetMandelbrotPointIterations x y width height m')) := by
        rcases b3 with b3 | b3
        · omega
        · exact b3
      exact evaluator_eq_min x y width height m _ b4 hesc
  refine ⟨hmin, ?_, ?_⟩
  · rw [hmin]
    exact min_le_right _ _
  · intro hlt
    rw [hmin] at hlt ⊢
    omega

/-- Witness of C17 at the coordinate `(4, 3)` of a `3 × 2` image with the bounds
`2` and `128`. -/
theorem GetMandelbrotPointIterations_bound_witness :
    (0 < 3 ∧ 0 < 2 ∧ 2 ≤ 128) ∧
    GetMandelbrotPointIterations 4 3 3 2 2 = min 2 (GetMandelbrotPointIterations 4 3 3 2 128) :=
  ⟨⟨by decide, by decide, by decide⟩,
    (GetMandelbrotPointIterations_bound 4 3 3 2 2 128 (by decide) (by decide) (by decide)).1⟩

/-- The recurrence of the conjugate is the conjugate of the recurrence. -/
theorem specOrbit_conj (c : Complex Real) (k : Nat) :
    specOrbit (specConj c) k = specConj (specOrbit c k) := by
  induction k with
  | zero => simp [specOrbit, specConj]
  | succ k ih =>
    show specAdd (specMul (specOrbit (specConj c) k) (specOrbit (specConj c) k)) (specConj c) =
      specConj (specAdd (specMul (specOrbit c k) (specOrbit c k)) c)
    rw [ih]
    simp only [specAdd, specMul, specConj, Complex.mk.injEq]
    constructor <;> ring

/-- Conjugation keeps the squared magnitude. -/
theorem specMagnitudeSquared_conj (z : Complex Real) :
    specMagnitudeSquared (specConj z) = specMagnitudeSquared z := by
  simp [specMagnitudeSquared, specConj]

/-- The rows `y` and `height − y` map to conjugate complex values. -/
theorem GetComplexFromPixel_mirror (x y : Real) (width height : Nat) (hh : 0 < height) :
    GetComplexFromPixel x ((height : Real) - y) width height =
      specConj (GetComplexFromPixel x y width height) := by
  have hh2 : (height : Real) ≠ 0 := by exact_mod_cast hh.ne'
  simp only [GetComplexFromPixel, specConj, Complex.mk.injEq]
  refine ⟨trivial, ?_⟩
  field_simp
  ring

/-- C18: for `width > 0` and `height > 0`, in exact arithmetic the evaluator
returns the same count at `(x, y)` and at `(x, height − y)`: the two
coordinates map to conjugates `c` and `c̄`, every iterate of `c̄` is the
conjugate of the iterate of `c`, so the count is symmetric about the row
`y = height/2`. -/
theorem GetMandelbrotPointIterations_mirror (x y : Real) (width height maxIterations : Nat)
    (_hw : 0 < width) (hh : 0 < height) :
    GetMandelbrotPointIterations x y width height maxIterations =
      GetMandelbrotPointIterations x ((height : Real) - y) width height maxIterations ∧
    GetComplexFromPixel x ((height : Real) - y) width height =
      specConj (GetComplexFromPixel x y width height) ∧
    (∀ k, specOrbit (GetComplexFromPixel x ((height : Real) - y) width height) k =
      specConj (specOrbit (GetComplexFromPixel x y width height) k)) := by
  have hc := GetComplexFromPixel_mirror x y width height hh
  refine ⟨?_, hc, ?_⟩
  · apply evaluator_congr
    intro k
    rw [hc, specOrbit_conj, specMagnitudeSquared_conj]
  · intro k
    rw [hc, specOrbit_conj]

/-- Witness of C18: rows `1/4` and `2 − 1/4` of a `3 × 2` image. -/
theorem GetMandelbrotPointIterations_mirror_witness :
    (0 < 3 ∧ 0 < 2) ∧
    GetMandelbrotPointIterations 1 (1 / 4) 3 2 128 =
      GetMandelbrotPointIterations 1 (((2 : Nat) : Real) - 1 / 4) 3 2 128 :=
  ⟨⟨by decide, by decide⟩,
    (GetMandelbrotPointIterations_mirror 1 (1 / 4) 3 2 128 (by decide) (by decide)).1⟩


/-! ## The evaluator in `long double` arithmetic at a point of the escape radius -/

/-- The value of an operation whose exact result `q` is positive, from the
exponent `e` of `q` and the integer `m` nearest to the scaled value. -/
theorem LongDouble.round_eq_pos (q v : ℚ) (e m : ℤ) (h1 : (2 : ℚ) ^ e ≤ q)
    (h2 : q < 2 ^ (e + 1)) (h3 : -(1 / 2) < q / 2 ^ (e - 63) - m)
    (h4 : q / 2 ^ (e - 63) - m < 1 / 2) (hv : v = m * 2 ^ (e - 63)) :
    LongDouble.round q = ⟨v⟩ := by
  unfold LongDouble.round
  rw [roundTo_eq_pos 64 q e m h1 h2 (by simpa using h3) (by simpa using h4), hv]
  norm_num

/-- The value of an operation whose exact result `q` is negative. -/
theorem LongDouble.round_eq_neg (q v : ℚ) (e m : ℤ) (h1 : (2 : ℚ) ^ e ≤ -q)
    (h2 : -q < 2 ^ (e + 1)) (h3 : -(1 / 2) < q / 2 ^ (e - 63) - m)
    (h4 : q / 2 ^ (e - 63) - m < 1 / 2) (hv : v = m * 2 ^ (e - 63)) :
    LongDouble.round q = ⟨v⟩ := by
  unfold LongDouble.round
  rw [roundTo_eq_neg 64 q e m h1 h2 (by simpa using h3) (by simpa using h4), hv]
  norm_num

/-- An operation whose exact result is `0` delivers `0`. -/
theorem LongDouble.round_zero : LongDouble.round 0 = ⟨0⟩ := by
  simp [LongDouble.round, roundTo]

/-- One trip of the loop body `z *= z; z += c;` leaves `c` as it is, for every
type of the members. -/
theorem Complex.trip_cLoc {T : Type} [Add T] [Mul T] [Neg T] [One T] (s : Store T) :
    (Complex.opAddAssign (Complex.opMulAssign s zLoc zLoc) zLoc cLoc) cLoc = s cLoc := by
  simp [Complex.opAddAssign_apply, Complex.opMulAssign_apply, zLoc, cLoc]

/-- One trip of the loop body `z *= z; z += c;` on `z`, operation by operation,
for every type of the members. -/
theorem Complex.trip_zLoc {T : Type} [Add T] [Mul T] [Neg T] [One T] (s : Store T) :
    (Complex.opAddAssign (Complex.opMulAssign s zLoc zLoc) zLoc cLoc) zLoc =
      { real := (((s zLoc).real * (s zLoc).real) +
          ((s zLoc).imaginary * (s zLoc).imaginary * (-1))) + (s cLoc).real
        imaginary := (((s zLoc).real * (s zLoc).imaginary) +
          ((s zLoc).real * (s zLoc).imaginary)) + (s cLoc).imaginary } := by
  simp [Complex.opAddAssign_apply, Complex.opMulAssign_apply, zLoc, cLoc]

/-- The loop in `long double` arithmetic makes a trip when its test holds. -/
theorem LongDouble.loop_continue (maxIterations fuel i : Nat) (s : Store LongDouble)
    (hi : i ≠ maxIterations)
    (hg : (s zLoc).GetMagnitudeSquared < (⟨toDouble (1000 * 1000)⟩ : LongDouble)) :
    LongDouble.GetMandelbrotPointIterations.loop maxIterations (fuel + 1) i s =
      LongDouble.GetMandelbrotPointIterations.loop maxIterations fuel (i + 1)
        (Complex.opAddAssign (Complex.opMulAssign s zLoc zLoc) zLoc cLoc) := by
  rw [LongDouble.GetMandelbrotPointIterations.loop, if_pos ⟨hi, hg⟩]

/-- The loop in `long double` arithmetic returns `i` when the test on the
magnitude fails. -/
theorem LongDouble.loop_leave (maxIterations fuel i : Nat) (s : Store LongDouble)
    (hg : ¬ (s zLoc).GetMagnitudeSquared < (⟨toDouble (1000 * 1000)⟩ : LongDouble)) :
    LongDouble.GetMandelbrotPointIterations.loop maxIterations (fuel + 1) i s = i := by
  rw [LongDouble.GetMandelbrotPointIterations.loop, if_neg (fun h => hg h.2)]

/-- The threshold `1000.0 * 1000.0` is `10^6`. -/
theorem LongDouble.threshold : (⟨toDouble (1000 * 1000)⟩ : LongDouble) = ⟨1000000⟩ := by
  unfold toDouble
  rw [roundTo_eq_pos 53 _ 19 (1000000 * 2 ^ 33) (by norm_num) (by norm_num) (by norm_num)
    (by norm_num)]
  norm_num

/-- The pixel `(15034, 8017)` of a `51 × 34` image in `long double` arithmetic:
the two quotients are rounded, the other operations are exact. -/
theorem LongDouble.GetComplexFromPixel_radius :
    LongDouble.GetComplexFromPixel ⟨15034⟩ ⟨8017⟩ 51 34 =
      (⟨⟨(7947528754183228235 / 9007199254740992)⟩,
      ⟨(16954728008924220235 / 36028797018963968)⟩⟩ : Complex LongDouble) := by
  have hW : LongDouble.round ((51 : ℕ) : ℚ) = ⟨51⟩ :=
    LongDouble.round_eq_pos _ _ 5 14699749183737298944 (by norm_num) (by norm_num) (by norm_num)
      (by norm_num) (by norm_num)
  have hH : LongDouble.round ((34 : ℕ) : ℚ) = ⟨34⟩ :=
    LongDouble.round_eq_pos _ _ 5 9799832789158199296 (by norm_num) (by norm_num) (by norm_num)
      (by norm_num) (by norm_num)
  have ha1 : (⟨15034⟩ /
      ⟨51⟩ : LongDouble) =
      ⟨(2655181050897570073 / 9007199254740992)⟩ :=
    LongDouble.round_eq_pos _ _ (8) (10620724203590280292)
      (by norm_num) (by norm_num) (by norm_num) (by norm_num) (by norm_num)
  have ha2 : (⟨(2655181050897570073 / 9007199254740992)⟩ *
      ⟨3⟩ : LongDouble) =
      ⟨(7965543152692710219 / 9007199254740992)⟩ :=
    LongDouble.round_eq_pos _ _ (9) (15931086305385420438)
      (by norm_num) (by norm_num) (by norm_num) (by norm_num) (by norm_num)
  have hcre : (⟨(7965543152692710219 / 9007199254740992)⟩ -
      ⟨2⟩ : LongDouble) =
      ⟨(7947528754183228235 / 9007199254740992)⟩ :=
    LongDouble.round_eq_pos _ _ (9) (15895057508366456470)
      (by norm_num) (by norm_num) (by norm_num) (by norm_num) (by norm_num)
  have hb1 : (⟨8017⟩ /
      ⟨34⟩ : LongDouble) =
      ⟨(16990756805943184203 / 72057594037927936)⟩ :=
    LongDouble.round_eq_pos _ _ (7) (16990756805943184203)
      (by norm_num) (by norm_num) (by norm_num) (by norm_num) (by norm_num)
  have hb2 : (⟨(16990756805943184203 / 72057594037927936)⟩ *
      ⟨2⟩ : LongDouble) =
      ⟨(16990756805943184203 / 36028797018963968)⟩ :=
    LongDouble.round_eq_pos _ _ (8) (16990756805943184203)
      (by norm_num) (by norm_num) (by norm_num) (by norm_num) (by norm_num)
  have hcim : (⟨(16990756805943184203 / 36028797018963968)⟩ -
      ⟨1⟩ : LongDouble) =
      ⟨(16954728008924220235 / 36028797018963968)⟩ :=
    LongDouble.round_eq_pos _ _ (8) (16954728008924220235)
      (by norm_num) (by norm_num) (by norm_num) (by norm_num) (by norm_num)
  unfold LongDouble.GetComplexFromPixel
  rw [hW, hH, ha1, ha2, hcre, hb1, hb2, hcim]

/-- The first trip of the loop: from `z = 0` the body leaves `z = c`. -/
theorem LongDouble.body_first (s : Store LongDouble)
    (hc : s cLoc = (⟨⟨(7947528754183228235 / 9007199254740992)⟩,
      ⟨(16954728008924220235 / 36028797018963968)⟩⟩ : Complex LongDouble))
    (hz : s zLoc = { real := 0, imaginary := 0 }) :
    (Complex.opAddAssign (Complex.opMulAssign s zLoc zLoc) zLoc cLoc) zLoc =
      (⟨⟨(7947528754183228235 / 9007199254740992)⟩,
      ⟨(16954728008924220235 / 36028797018963968)⟩⟩ : Complex LongDouble) := by
  have h0 : (0 : LongDouble) = ⟨0⟩ := rfl
  have h1 : (-1 : LongDouble) = ⟨-1⟩ := rfl
  have hmul : (⟨0⟩ * ⟨0⟩ : LongDouble) = ⟨0⟩ := by
    show LongDouble.round (0 * 0) = ⟨0⟩
    rw [mul_zero, LongDouble.round_zero]
  have hneg : (⟨0⟩ * ⟨-1⟩ : LongDouble) = ⟨0⟩ := by
    show LongDouble.round (0 * -1) = ⟨0⟩
    rw [zero_mul, LongDouble.round_zero]
  have hadd : (⟨0⟩ + ⟨0⟩ : LongDouble) = ⟨0⟩ := by
    show LongDouble.round (0 + 0) = ⟨0⟩
    rw [add_zero, LongDouble.round_zero]
  have hzr1 : (⟨0⟩ +
      ⟨(7947528754183228235 / 9007199254740992)⟩ : LongDouble) =
      ⟨(7947528754183228235 / 9007199254740992)⟩ :=
    LongDouble.round_eq_pos _ _ (9) (15895057508366456470)
      (by norm_num) (by norm_num) (by norm_num) (by norm_num) (by norm_num)
  have hzi1 : (⟨0⟩ +
      ⟨(16954728008924220235 / 36028797018963968)⟩ : LongDouble) =
      ⟨(16954728008924220235 / 36028797018963968)⟩ :=
    LongDouble.round_eq_pos _ _ (8) (16954728008924220235)
      (by norm_num) (by norm_num) (by norm_num) (by norm_num) (by norm_num)
  rw [Complex.trip_zLoc, hc, hz]
  simp only [h0, h1, hmul, hneg, hadd, hzr1, hzi1]

/-- The test of the loop on `z = c`: the two squares and their sum are rounded,
and the sum is the `long double` next below `10^6`. -/
theorem LongDouble.magnitude_first :
    Complex.GetMagnitudeSquared (⟨⟨(7947528754183228235 / 9007199254740992)⟩,
      ⟨(16954728008924220235 / 36028797018963968)⟩⟩ : Complex LongDouble) =
      ⟨(17592186044415999999 / 17592186044416)⟩ := by
  have hp1 : (⟨(7947528754183228235 / 9007199254740992)⟩ *
      ⟨(7947528754183228235 / 9007199254740992)⟩ : LongDouble) =
      ⟨(1712042326986851211 / 2199023255552)⟩ :=
    LongDouble.round_eq_pos _ _ (19) (13696338615894809688)
      (by norm_num) (by norm_num) (by norm_num) (by norm_num) (by norm_num)
  have hp2 : (⟨(16954728008924220235 / 36028797018963968)⟩ *
      ⟨(16954728008924220235 / 36028797018963968)⟩ : LongDouble) =
      ⟨(15583389714084761245 / 70368744177664)⟩ :=
    LongDouble.round_eq_pos _ _ (17) (15583389714084761245)
      (by norm_num) (by norm_num) (by norm_num) (by norm_num) (by norm_num)
  have hm1 : (⟨(1712042326986851211 / 2199023255552)⟩ +
      ⟨(15583389714084761245 / 70368744177664)⟩ : LongDouble) =
      ⟨(17592186044415999999 / 17592186044416)⟩ :=
    LongDouble.round_eq_pos _ _ (19) (17592186044415999999)
      (by norm_num) (by norm_num) (by norm_num) (by norm_num) (by norm_num)
  unfold Complex.GetMagnitudeSquared
  simp only [hp1, hp2, hm1]

/-- The second trip of the loop: from `z = c` the body leaves the second
iterate. -/
theorem LongDouble.body_second (s : Store LongDouble)
    (hc : s cLoc = (⟨⟨(7947528754183228235 / 9007199254740992)⟩,
      ⟨(16954728008924220235 / 36028797018963968)⟩⟩ : Complex LongDouble))
    (hz : s zLoc = (⟨⟨(7947528754183228235 / 9007199254740992)⟩,
      ⟨(16954728008924220235 / 36028797018963968)⟩⟩ : Complex LongDouble)) :
    (Complex.opAddAssign (Complex.opMulAssign s zLoc zLoc) zLoc cLoc) zLoc =
      (⟨⟨(9816013704471633495 / 17592186044416)⟩,
      ⟨(3654426633185017799 / 4398046511104)⟩⟩ : Complex LongDouble) := by
  have h1 : (-1 : LongDouble) = ⟨-1⟩ := rfl
  have hp1 : (⟨(7947528754183228235 / 9007199254740992)⟩ *
      ⟨(7947528754183228235 / 9007199254740992)⟩ : LongDouble) =
      ⟨(1712042326986851211 / 2199023255552)⟩ :=
    LongDouble.round_eq_pos _ _ (19) (13696338615894809688)
      (by norm_num) (by norm_num) (by norm_num) (by norm_num) (by norm_num)
  have hp2 : (⟨(16954728008924220235 / 36028797018963968)⟩ *
      ⟨(16954728008924220235 / 36028797018963968)⟩ : LongDouble) =
      ⟨(15583389714084761245 / 70368744177664)⟩ :=
    LongDouble.round_eq_pos _ _ (17) (15583389714084761245)
      (by norm_num) (by norm_num) (by norm_num) (by norm_num) (by norm_num)
  have hn2 : (⟨(15583389714084761245 / 70368744177664)⟩ *
      ⟨(-1)⟩ : LongDouble) =
      ⟨(-15583389714084761245 / 70368744177664)⟩ :=
    LongDouble.round_eq_neg _ _ (17) (-15583389714084761245)
      (by norm_num) (by norm_num) (by norm_num) (by norm_num) (by norm_num)
  have hr : (⟨(1712042326986851211 / 2199023255552)⟩ +
      ⟨(-15583389714084761245 / 70368744177664)⟩ : LongDouble) =
      ⟨(9800491187373619377 / 17592186044416)⟩ :=
    LongDouble.round_eq_pos _ _ (19) (9800491187373619377)
      (by norm_num) (by norm_num) (by norm_num) (by norm_num) (by norm_num)
  have hq1 : (⟨(7947528754183228235 / 9007199254740992)⟩ *
      ⟨(16954728008924220235 / 36028797018963968)⟩ : LongDouble) =
      ⟨(14609427856954463667 / 35184372088832)⟩ :=
    LongDouble.round_eq_pos _ _ (18) (14609427856954463667)
      (by norm_num) (by norm_num) (by norm_num) (by norm_num) (by norm_num)
  have him : (⟨(14609427856954463667 / 35184372088832)⟩ +
      ⟨(14609427856954463667 / 35184372088832)⟩ : LongDouble) =
      ⟨(14609427856954463667 / 17592186044416)⟩ :=
    LongDouble.round_eq_pos _ _ (19) (14609427856954463667)
      (by norm_num) (by norm_num) (by norm_num) (by norm_num) (by norm_num)
  have hzre : (⟨(9800491187373619377 / 17592186044416)⟩ +
      ⟨(7947528754183228235 / 9007199254740992)⟩ : LongDouble) =
      ⟨(9816013704471633495 / 17592186044416)⟩ :=
    LongDouble.round_eq_pos _ _ (19) (9816013704471633495)
      (by norm_num) (by norm_num) (by norm_num) (by norm_num) (by norm_num)
  have hzim : (⟨(14609427856954463667 / 17592186044416)⟩ +
      ⟨(16954728008924220235 / 36028797018963968)⟩ : LongDouble) =
      ⟨(3654426633185017799 / 4398046511104)⟩ :=
    LongDouble.round_eq_pos _ _ (19) (14617706532740071196)
      (by norm_num) (by norm_num) (by norm_num) (by norm_num) (by norm_num)
  rw [Complex.trip_zLoc, hc, hz]
  simp only [h1, hp1, hp2, hn2, hr, hq1, him, hzre, hzim]

/-- The test of the loop on the second iterate. -/
theorem LongDouble.magnitude_second :
    Complex.GetMagnitudeSquared (⟨⟨(9816013704471633495 / 17592186044416)⟩,
      ⟨(3654426633185017799 / 4398046511104)⟩⟩ : Complex LongDouble) =
      ⟨(2100854953622588235 / 2097152)⟩ := by
  have hu1 : (⟨(9816013704471633495 / 17592186044416)⟩ *
      ⟨(9816013704471633495 / 17592186044416)⟩ : LongDouble) =
      ⟨(1305841896290245567 / 4194304)⟩ :=
    LongDouble.round_eq_pos _ _ (38) (10446735170321964536)
      (by norm_num) (by norm_num) (by norm_num) (by norm_num) (by norm_num)
  have hu2 : (⟨(3654426633185017799 / 4398046511104)⟩ *
      ⟨(3654426633185017799 / 4398046511104)⟩ : LongDouble) =
      ⟨(2895868010954930903 / 4194304)⟩ :=
    LongDouble.round_eq_pos _ _ (39) (11583472043819723612)
      (by norm_num) (by norm_num) (by norm_num) (by norm_num) (by norm_num)
  have hm2 : (⟨(1305841896290245567 / 4194304)⟩ +
      ⟨(2895868010954930903 / 4194304)⟩ : LongDouble) =
      ⟨(2100854953622588235 / 2097152)⟩ :=
    LongDouble.round_eq_pos _ _ (39) (16806839628980705880)
      (by norm_num) (by norm_num) (by norm_num) (by norm_num) (by norm_num)
  unfold Complex.GetMagnitudeSquared
  simp only [hu1, hu2, hm2]

/-- The order of `long double` values is the order of the numbers. -/
theorem LongDouble.lt_mk (a b : ℚ) : ((⟨a⟩ : LongDouble) < ⟨b⟩) ↔ a < b := Iff.rfl

/-- The test of the loop on `z = 0`. -/
theorem LongDouble.magnitude_zero :
    Complex.GetMagnitudeSquared ({ real := 0, imaginary := 0 } : Complex LongDouble) = ⟨0⟩ := by
  show LongDouble.round ((LongDouble.round (0 * 0)).val + (LongDouble.round (0 * 0)).val) = ⟨0⟩
  rw [mul_zero, LongDouble.round_zero, add_zero, LongDouble.round_zero]

/-- The loop in `long double` arithmetic from `z = 0` with this `c` makes two
trips for every `maxIterations ≥ 2`: its test holds on `z = 0` and on `z = c`
and fails on the second iterate. -/
theorem LongDouble.loop_two (maxIterations fuel : Nat) (s : Store LongDouble)
    (hmax : 2 ≤ maxIterations)
    (hc : s cLoc = (⟨⟨(7947528754183228235 / 9007199254740992)⟩,
      ⟨(16954728008924220235 / 36028797018963968)⟩⟩ : Complex LongDouble))
    (hz : s zLoc = { real := 0, imaginary := 0 }) :
    LongDouble.GetMandelbrotPointIterations.loop maxIterations (fuel + 1 + 1 + 1) 0 s = 2 := by
  have hg0 : (s zLoc).GetMagnitudeSquared < (⟨toDouble (1000 * 1000)⟩ : LongDouble) := by
    rw [hz, LongDouble.magnitude_zero, LongDouble.threshold, LongDouble.lt_mk]
    norm_num
  rw [LongDouble.loop_continue maxIterations (fuel + 1 + 1) 0 s (by omega) hg0]
  have hz1 := LongDouble.body_first s hc hz
  have hc1 := (Complex.trip_cLoc s).trans hc
  have hg1 : ((Complex.opAddAssign (Complex.opMulAssign s zLoc zLoc) zLoc cLoc)
      zLoc).GetMagnitudeSquared < (⟨toDouble (1000 * 1000)⟩ : LongDouble) := by
    rw [hz1, LongDouble.magnitude_first, LongDouble.threshold, LongDouble.lt_mk]
    norm_num
  rw [LongDouble.loop_continue maxIterations (fuel + 1) (0 + 1) _ (by omega) hg1]
  have hz2 := LongDouble.body_second _ hc1 hz1
  rw [LongDouble.loop_leave maxIterations fuel (0 + 1 + 1) _ (by
    rw [hz2, LongDouble.magnitude_second, LongDouble.threshold, LongDouble.lt_mk]
    norm_num)]

/-- The evaluator in `long double` arithmetic is its loop from `i = 0`, `z = 0`
and the `c` of the pixel. -/
theorem LongDouble.evaluator_eq (x y : LongDouble) (width height maxIterations : Nat) :
    LongDouble.GetMandelbrotPointIterations x y width height maxIterations =
      LongDouble.GetMandelbrotPointIterations.loop maxIterations maxIterations 0
        (fun p => if p = cLoc then LongDouble.GetComplexFromPixel x y width height
          else { real := 0, imaginary := 0 }) := rfl

/-- The evaluator in `long double` arithmetic at the pixel `(15034, 8017)` of a
`51 × 34` image, for `maxIterations = 128`. -/
theorem LongDouble.evaluator_radius :
    LongDouble.GetMandelbrotPointIterations ⟨15034⟩ ⟨8017⟩ 51 34 128 = 2 := by
  rw [LongDouble.evaluator_eq, LongDouble.GetComplexFromPixel_radius]
  exact LongDouble.loop_two 128 125 _ (by decide) (if_pos rfl) (if_neg (by decide))

/-- C11, as the code has it: the pixel `(15034, 8017)` of a `51 × 34` image maps
to `c = 15000/17 + (8000/17)·i`, with `|c|² = 10^6`, and `maxIterations = 128 ≥ 1`,
but the evaluator in `long double` arithmetic (significand of 64 bits) returns
`2`: the rounded sum of the rounded squares of the rounded `c` is
`10^6 − 2^-44 < 10^6`, so the test that follows the first iteration passes. -/
theorem GetMandelbrotPointIterations_long_double :
    (0 < 51 ∧ 0 < 34 ∧ 1 ≤ 128) ∧
    GetComplexFromPixel 15034 8017 51 34 = ⟨15000 / 17, 8000 / 17⟩ ∧
    1000000 ≤ specMagnitudeSquared (GetComplexFromPixel 15034 8017 51 34) ∧
    LongDouble.GetMandelbrotPointIterations ⟨15034⟩ ⟨8017⟩ 51 34 128 = 2 ∧
    LongDouble.GetMandelbrotPointIterations ⟨15034⟩ ⟨8017⟩ 51 34 128 ≠ 1 := by
  have hpix : GetComplexFromPixel 15034 8017 51 34 = ⟨15000 / 17, 8000 / 17⟩ := by
    unfold GetComplexFromPixel
    norm_num
  have hmag : (1000000 : Real) ≤
      specMagnitudeSquared (GetComplexFromPixel 15034 8017 51 34) := by
    rw [hpix]
    unfold specMagnitudeSquared
    norm_num
  refine ⟨⟨by decide, by decide, by decide⟩, hpix, hmag, LongDouble.evaluator_radius, ?_⟩
  rw [LongDouble.evaluator_radius]
  decide

/-! ## Claims on the renderer -/

/-- `Render` without anti-aliasing, for `Width` and `Height` up to `INT_MAX`. -/
theorem Render.plain_eq {Width Height : Nat} {R G B A : Fin 4} {ColorsSize : Nat}
    (hn : 0 < ColorsSize) (self : Mandelbrot Width Height Real R G B A ColorsSize)
    (result : List (Color Real R G B A)) (maxIterations : Nat)
    (hW : Width ≤ INT_MAX) (hH : Height ≤ INT_MAX) :
    Render hn self result maxIterations false =
      some (Render.filled Width Height (Render.plainValue hn self maxIterations) result) := by
  have hR : Render hn self result maxIterations false =
      Render.fill Width Height (Render.plainValue hn self maxIterations) result := by
    simp [Render]
  rw [hR, Render.fill_eq _ _ _ _ hW hH]

/-- `Render` with anti-aliasing, for `Width` and `Height` up to `INT_MAX`. -/
theorem Render.antiAliased_eq {Width Height : Nat} {R G B A : Fin 4} {ColorsSize : Nat}
    (hn : 0 < ColorsSize) (self : Mandelbrot Width Height Real R G B A ColorsSize)
    (result : List (Color Real R G B A)) (maxIterations : Nat)
    (hW : Width ≤ INT_MAX) (hH : Height ≤ INT_MAX) :
    Render hn self result maxIterations true =
      some (Render.filled Width Height (Render.antiAliasedValue hn self maxIterations)
        result) := by
  have hR : Render hn self result maxIterations true =
      Render.fill Width Height (Render.antiAliasedValue hn self maxIterations) result := by
    simp [Render]
  rw [hR, Render.fill_eq _ _ _ _ hW hH]

/-- C3: for `Width > 0`, `Height > 0`, both within the range of the `int` loop
counters, and a buffer of length at least `Width·Height`, `Render` with
`antiAliased = false` yields a buffer in which the entry at index `x + y·Width`
of every pixel `0 ≤ x < Width`, `0 ≤ y < Height` is the colour mapper applied to
`GetMandelbrotPointIterations(x, y, Width, Height, maxIterations)`; every index
below `Width·Height` is written, row-major, and the entries at indices from
`Width·Height` on are as before. -/
theorem Render_plain {Width Height : Nat} {R G B A : Fin 4} {ColorsSize : Nat}
    (hn : 0 < ColorsSize) (self : Mandelbrot Width Height Real R G B A ColorsSize)
    (result : List (Color Real R G B A)) (maxIterations : Nat)
    (_hW : 0 < Width) (_hH : 0 < Height) (hWmax : Width ≤ INT_MAX) (hHmax : Height ≤ INT_MAX)
    (hlen : Width * Height ≤ result.length) :
    ∃ out : List (Color Real R G B A),
      Render hn self result maxIterations false = some out ∧
      out.length = result.length ∧
      (∀ x y, x < Width → y < Height →
        out[x + y * Width]? =
          some (Render.GetColor hn
            (GetMandelbrotPointIterations (x : Real) (y : Real) Width Height maxIterations)
            maxIterations self.backgroundColor self.colors)) ∧
      (∀ j, j < Width * Height →
        out[j]? =
          some (Render.GetColor hn
            (GetMandelbrotPointIterations ((j % Width : Nat) : Real) ((j / Width : Nat) : Real)
              Width Height maxIterations)
            maxIterations self.backgroundColor self.colors)) ∧
      (∀ j, Width * Height ≤ j → out[j]? = result[j]?) := by
  refine ⟨_, Render.plain_eq hn self result maxIterations hWmax hHmax,
    Render.filled_length _ _ _ _, ?_, ?_, ?_⟩
  · intro x y hx hy
    rw [Render.filled_pixel Width Height _ result hlen x y hx hy]
    rfl
  · intro j hj
    have h3 : Width * Height = Height * Width := Nat.mul_comm Width Height
    rw [Render.filled_getElem?, if_pos (by omega), if_pos (by omega)]
    rfl
  · intro j hj
    exact Render.filled_rest Width Height _ result j hj

/-- Witness of C3: a `2 × 1` image with a palette of one colour and a buffer of
three entries. -/
theorem Render_plain_witness :
    (0 < 1 ∧ 0 < 2 ∧ 0 < 1 ∧ 2 ≤ INT_MAX ∧ 1 ≤ INT_MAX ∧ 2 * 1 ≤ 3) ∧
    ∃ out : List (Color Real 0 1 2 3),
      Render (Nat.succ_pos 0)
        (⟨⟨![0, 0, 0, 1]⟩, ![⟨![1, 0, 0, 1]⟩]⟩ : Mandelbrot 2 1 Real 0 1 2 3 1)
        [⟨![5, 5, 5, 5]⟩, ⟨![6, 6, 6, 6]⟩, ⟨![7, 7, 7, 7]⟩] 128 false = some out ∧
      out.length = 3 :=
  ⟨⟨by decide, by decide, by decide, by decide, by decide, by decide⟩,
    (Render_plain (Nat.succ_pos 0)
      (⟨⟨![0, 0, 0, 1]⟩, ![⟨![1, 0, 0, 1]⟩]⟩ : Mandelbrot 2 1 Real 0 1 2 3 1)
      [⟨![5, 5, 5, 5]⟩, ⟨![6, 6, 6, 6]⟩, ⟨![7, 7, 7, 7]⟩] 128
      (by decide) (by decide) (by decide) (by decide) (by decide)).imp
      (fun _ h => ⟨h.1, h.2.1⟩)⟩

/-- The entry that the anti-aliased branch assigns to a pixel. -/
theorem Render.entry_antiAliased {Width Height : Nat} {R G B A : Fin 4} {ColorsSize : Nat}
    (hn : 0 < ColorsSize) (self : Mandelbrot Width Height Real R G B A ColorsSize)
    (result : List (Color Real R G B A)) (maxIterations : Nat)
    (hlen : Width * Height ≤ result.length) (x y : Nat) (hx : x < Width) (hy : y < Height) :
    (Render.filled Width Height (Render.antiAliasedValue hn self maxIterations)
      result)[x + y * Width]? =
      some (Render.antiAliasedValue hn self maxIterations x y) :=
  Render.filled_pixel Width Height _ result hlen x y hx hy

/-- The entry that the branch without anti-aliasing assigns to a pixel. -/
theorem Render.entry_plain {Width Height : Nat} {R G B A : Fin 4} {ColorsSize : Nat}
    (hn : 0 < ColorsSize) (self : Mandelbrot Width Height Real R G B A ColorsSize)
    (result : List (Color Real R G B A)) (maxIterations : Nat)
    (hlen : Width * Height ≤ result.length) (x y : Nat) (hx : x < Width) (hy : y < Height) :
    (Render.filled Width Height (Render.plainValue hn self maxIterations)
      result)[x + y * Width]? =
      some (Render.specSample hn self maxIterations x y) := by
  rw [Render.filled_pixel Width Height _ result hlen x y hx hy]
  rfl

/-- The expression of the anti-aliased branch, position by position, for a
permutation and counters within the range of `int`. -/
theorem Render.antiAliasedValue_data {Width Height : Nat} {R G B A : Fin 4} {ColorsSize : Nat}
    (hn : 0 < ColorsSize) (hp : Color.IsPermutation R G B A)
    (self : Mandelbrot Width Height Real R G B A ColorsSize) (maxIterations : Nat)
    (x y : Nat) (hx : x ≤ INT_MAX) (hy : y ≤ INT_MAX) (i : Fin 4) :
    (Render.antiAliasedValue hn self maxIterations x y).data i =
      Render.specBlend hn self maxIterations x y i := by
  simp only [Render.antiAliasedValue, Render.specBlend, Render.specSample,
    Render.plus_half x hx, Render.minus_half x hx, Render.plus_half y hy,
    Render.minus_half y hy, Color.mul_data hp, Color.add_data hp]
  ring

/-- With `maxIterations = 1` the colour mapper applied to the evaluator returns
the background colour at every coordinate. -/
theorem Render.specSample_one {Width Height : Nat} {R G B A : Fin 4} {ColorsSize : Nat}
    (hn : 0 < ColorsSize) (self : Mandelbrot Width Height Real R G B A ColorsSize)
    (px py : Real) : Render.specSample hn self 1 px py = self.backgroundColor := by
  simp [Render.specSample, Render.GetColor, evaluator_one]

/-- The blend of nine equal values is that value: `1/2 + 8·(1/16) = 1`. -/
theorem Render.specBlend_uniform {Width Height : Nat} {R G B A : Fin 4} {ColorsSize : Nat}
    (hn : 0 < ColorsSize) (self : Mandelbrot Width Height Real R G B A ColorsSize)
    (maxIterations : Nat) (x y : Nat) (C : Color Real R G B A)
    (h0 : Render.specSample hn self maxIterations x y = C)
    (h1 : Render.specSample hn self maxIterations (x + 0.5) y = C)
    (h2 : Render.specSample hn self maxIterations (x - 0.5) y = C)
    (h3 : Render.specSample hn self maxIterations x (y + 0.5) = C)
    (h4 : Render.specSample hn self maxIterations x (y - 0.5) = C)
    (h5 : Render.specSample hn self maxIterations (Render.plus x Render.sin_phi_div_2)
      (Render.plus y Render.sin_phi_div_2) = C)
    (h6 : Render.specSample hn self maxIterations (Render.minus x Render.sin_phi_div_2)
      (Render.plus y Render.sin_phi_div_2) = C)
    (h7 : Render.specSample hn self maxIterations (Render.plus x Render.sin_phi_div_2)
      (Render.minus y Render.sin_phi_div_2) = C)
    (h8 : Render.specSample hn self maxIterations (Render.minus x Render.sin_phi_div_2)
      (Render.minus y Render.sin_phi_div_2) = C)
    (i : Fin 4) : Render.specBlend hn self maxIterations x y i = C.data i := by
  simp only [Render.specBlend, h0, h1, h2, h3, h4, h5, h6, h7, h8]
  norm_num
  ring

/-- The expression of the anti-aliased branch is the common colour of the nine
samples when they are equal and the index parameters are a permutation. -/
theorem Render.antiAliasedValue_uniform {Width Height : Nat} {R G B A : Fin 4}
    {ColorsSize : Nat} (hn : 0 < ColorsSize) (hp : Color.IsPermutation R G B A)
    (self : Mandelbrot Width Height Real R G B A ColorsSize)
    (maxIterations : Nat) (x y : Nat) (hx : x ≤ INT_MAX) (hy : y ≤ INT_MAX)
    (C : Color Real R G B A)
    (h0 : Render.specSample hn self maxIterations x y = C)
    (h1 : Render.specSample hn self maxIterations (x + 0.5) y = C)
    (h2 : Render.specSample hn self maxIterations (x - 0.5) y = C)
    (h3 : Render.specSample hn self maxIterations x (y + 0.5) = C)
    (h4 : Render.specSample hn self maxIterations x (y - 0.5) = C)
    (h5 : Render.specSample hn self maxIterations (Render.plus x Render.sin_phi_div_2)
      (Render.plus y Render.sin_phi_div_2) = C)
    (h6 : Render.specSample hn self maxIterations (Render.minus x Render.sin_phi_div_2)
      (Render.plus y Render.sin_phi_div_2) = C)
    (h7 : Render.specSample hn self maxIterations (Render.plus x Render.sin_phi_div_2)
      (Render.minus y Render.sin_phi_div_2) = C)
    (h8 : Render.specSample hn self maxIterations (Render.minus x Render.sin_phi_div_2)
      (Render.minus y Render.sin_phi_div_2) = C) :
    Render.antiAliasedValue hn self maxIterations x y = C := by
  apply Color.ext
  funext i
  rw [Render.antiAliasedValue_data hn hp self maxIterations x y hx hy,
    Render.specBlend_uniform hn self maxIterations x y C h0 h1 h2 h3 h4 h5 h6 h7 h8]

/-- C12: for every channel ordering (index parameters a permutation of
`{0,1,2,3}`) and `Width`, `Height` within the range of the `int` loop counters,
at every pixel of an anti-aliased `Render` at which all 9 samples map to the
same colour `C`, the stored colour is `C` exactly in exact arithmetic, the
colour that `Render` without anti-aliasing stores at that pixel: the weights
`1/2 + 8·(1/16)` sum to `1`. -/
theorem Render_uniform {Width Height : Nat} {R G B A : Fin 4} {ColorsSize : Nat}
    (hn : 0 < ColorsSize) (hp : Color.IsPermutation R G B A)
    (self : Mandelbrot Width Height Real R G B A ColorsSize)
    (result : List (Color Real R G B A)) (maxIterations : Nat)
    (hWmax : Width ≤ INT_MAX) (hHmax : Height ≤ INT_MAX)
    (hlen : Width * Height ≤ result.length) (x y : Nat) (hx : x < Width) (hy : y < Height)
    (C : Color Real R G B A)
    (h0 : Render.specSample hn self maxIterations x y = C)
    (h1 : Render.specSample hn self maxIterations (x + 0.5) y = C)
    (h2 : Render.specSample hn self maxIterations (x - 0.5) y = C)
    (h3 : Render.specSample hn self maxIterations x (y + 0.5) = C)
    (h4 : Render.specSample hn self maxIterations x (y - 0.5) = C)
    (h5 : Render.specSample hn self maxIterations (Render.plus x Render.sin_phi_div_2)
      (Render.plus y Render.sin_phi_div_2) = C)
    (h6 : Render.specSample hn self maxIterations (Render.minus x Render.sin_phi_div_2)
      (Render.plus y Render.sin_phi_div_2) = C)
    (h7 : Render.specSample hn self maxIterations (Render.plus x Render.sin_phi_div_2)
      (Render.minus y Render.sin_phi_div_2) = C)
    (h8 : Render.specSample hn self maxIterations (Render.minus x Render.sin_phi_div_2)
      (Render.minus y Render.sin_phi_div_2) = C) :
    ∃ (out plain : List (Color Real R G B A)),
      Render hn self result maxIterations true = some out ∧
      Render hn self result maxIterations false = some plain ∧
      out[x + y * Width]? = some C ∧
      plain[x + y * Width]? = some C ∧
      out[x + y * Width]? = plain[x + y * Width]? ∧
      ((1 : Real) / 2 + 8 * (1 / 16) = 1) := by
  have ha := Render.entry_antiAliased hn self result maxIterations hlen x y hx hy
  rw [Render.antiAliasedValue_uniform hn hp self maxIterations x y (by omega) (by omega) C
    h0 h1 h2 h3 h4 h5 h6 h7 h8] at ha
  have hb := Render.entry_plain hn self result maxIterations hlen x y hx hy
  rw [h0] at hb
  exact ⟨_, _, Render.antiAliased_eq hn self result maxIterations hWmax hHmax,
    Render.plain_eq hn self result maxIterations hWmax hHmax, ha, hb, ha.trans hb.symm,
    by norm_num⟩

/-- Witness of C12: a `1 × 1` image of `RGBAColor` with `maxIterations = 1`,
where every sample is the background colour. -/
theorem Render_uniform_witness :
    (0 < 1 ∧ Color.IsPermutation (0 : Fin 4) 1 2 3 ∧ 1 ≤ INT_MAX ∧ 1 * 1 ≤ 1 ∧
      ∀ px py : Real, Render.specSample (Nat.succ_pos 0)
        (⟨⟨![0, 0, 0, 1]⟩, ![⟨![1, 0, 0, 1]⟩]⟩ : Mandelbrot 1 1 Real 0 1 2 3 1) 1 px py =
        ⟨![0, 0, 0, 1]⟩) ∧
    ∃ (out plain : List (Color Real 0 1 2 3)),
      Render (Nat.succ_pos 0)
        (⟨⟨![0, 0, 0, 1]⟩, ![⟨![1, 0, 0, 1]⟩]⟩ : Mandelbrot 1 1 Real 0 1 2 3 1)
        [⟨![5, 5, 5, 5]⟩] 1 true = some out ∧
      Render (Nat.succ_pos 0)
        (⟨⟨![0, 0, 0, 1]⟩, ![⟨![1, 0, 0, 1]⟩]⟩ : Mandelbrot 1 1 Real 0 1 2 3 1)
        [⟨![5, 5, 5, 5]⟩] 1 false = some plain ∧
      out[0 + 0 * 1]? = some ⟨![0, 0, 0, 1]⟩ :=
  ⟨⟨by decide, by decide, by decide, by decide, Render.specSample_one _ _⟩,
    (Render_uniform (Nat.succ_pos 0) (by decide)
      (⟨⟨![0, 0, 0, 1]⟩, ![⟨![1, 0, 0, 1]⟩]⟩ : Mandelbrot 1 1 Real 0 1 2 3 1)
      [⟨![5, 5, 5, 5]⟩] 1 (by decide) (by decide) (by decide) 0 0 (by decide) (by decide)
      ⟨![0, 0, 0, 1]⟩
      (Render.specSample_one _ _ _ _) (Render.specSample_one _ _ _ _)
      (Render.specSample_one _ _ _ _) (Render.specSample_one _ _ _ _)
      (Render.specSample_one _ _ _ _) (Render.specSample_one _ _ _ _)
      (Render.specSample_one _ _ _ _) (Render.specSample_one _ _ _ _)
      (Render.specSample_one _ _ _ _)).imp
      (fun _ h => h.imp (fun _ h => ⟨h.1, h.2.1, h.2.2.1⟩))⟩

/-! ## Further claims on `Color` -/

section ColorBuild

variable {T : Type} {R G B A : Fin 4}

/-- The four getters after the four setters, called in source order on any
colour whose index parameters are a permutation. -/
theorem Color.set_getters (hp : Color.IsPermutation R G B A) (c : Color T R G B A)
    (r g b a : T) :
    ((((c.SetRed r).SetGreen g).SetBlue b).SetAlpha a).GetRed = r ∧
    ((((c.SetRed r).SetGreen g).SetBlue b).SetAlpha a).GetGreen = g ∧
    ((((c.SetRed r).SetGreen g).SetBlue b).SetAlpha a).GetBlue = b ∧
    ((((c.SetRed r).SetGreen g).SetBlue b).SetAlpha a).GetAlpha = a := by
  obtain ⟨h1, h2, h3, h4, h5, h6⟩ := hp.ne
  simp only [Color.SetRed, Color.SetGreen, Color.SetBlue, Color.SetAlpha,
    Color.GetRed, Color.GetGreen, Color.GetBlue, Color.GetAlpha, Function.update_apply]
  simp [h1, h2, h3, h4, h5, h6, h1.symm, h2.symm, h3.symm, h4.symm, h5.symm, h6.symm]

/-- Two colours of one permutation with the same four getters are the same
array. -/
theorem Color.eq_of_getters (hp : Color.IsPermutation R G B A) (a b : Color T R G B A)
    (hr : a.GetRed = b.GetRed) (hg : a.GetGreen = b.GetGreen) (hb : a.GetBlue = b.GetBlue)
    (ha : a.GetAlpha = b.GetAlpha) : a = b := by
  apply Color.ext
  funext i
  simp only [Color.GetRed, Color.GetGreen, Color.GetBlue, Color.GetAlpha] at hr hg hb ha
  rcases hp.cover i with h | h | h | h <;> subst h <;> assumption

end ColorBuild

/-- C15: for every channel ordering that is a permutation of `{0,1,2,3}`,
`Transparent()` has red = green = blue = alpha = `0` and `Black(maxValue)` has
red = green = blue = `0` and alpha = `maxValue`, read through the getters, for
every `maxValue`. -/
theorem Color.named_constructors {T : Type} [Zero T] {R G B A : Fin 4}
    (hp : Color.IsPermutation R G B A) (maxValue : T) :
    ((Color.Transparent : Color T R G B A).GetRed = 0 ∧
      (Color.Transparent : Color T R G B A).GetGreen = 0 ∧
      (Color.Transparent : Color T R G B A).GetBlue = 0 ∧
      (Color.Transparent : Color T R G B A).GetAlpha = 0) ∧
    ((Color.Black maxValue : Color T R G B A).GetRed = 0 ∧
      (Color.Black maxValue : Color T R G B A).GetGreen = 0 ∧
      (Color.Black maxValue : Color T R G B A).GetBlue = 0 ∧
      (Color.Black maxValue : Color T R G B A).GetAlpha = maxValue) := by
  refine ⟨?_, Color.set_getters hp Color.valueInit 0 0 0 maxValue⟩
  have h : ∀ i : Fin 4, (![0, 0, 0, 0] : Fin 4 → T) i = 0 := by
    intro i
    fin_cases i <;> rfl
  simp only [Color.Transparent, Color.GetRed, Color.GetGreen, Color.GetBlue, Color.GetAlpha, h]
  exact ⟨trivial, trivial, trivial, trivial⟩

/-- Witness of C15: `ABGRColor` with `maxValue = 255`. -/
theorem Color.named_constructors_witness :
    Color.IsPermutation (3 : Fin 4) 2 1 0 ∧
    (Color.Black (255 : Real) : ABGRColor Real).GetAlpha = 255 :=
  ⟨by decide, (Color.named_constructors (by decide) (255 : Real)).2.2.2.2⟩

/-- C20: for a colour `a` of ordering `P` and an ordering `Q`, both permutations
of `{0,1,2,3}`, `a.Convert<Q>()` has the red, green, blue and alpha of `a`, read
through the getters of the ordering `Q`, and converting back with
`Convert<P>()` yields the array of `a`. -/
theorem Color.Convert_roundtrip {T : Type} [Zero T] {R G B A R2 G2 B2 A2 : Fin 4}
    (hp : Color.IsPermutation R G B A) (hq : Color.IsPermutation R2 G2 B2 A2)
    (a : Color T R G B A) :
    ((a.Convert R2 G2 B2 A2).GetRed = a.GetRed ∧
      (a.Convert R2 G2 B2 A2).GetGreen = a.GetGreen ∧
      (a.Convert R2 G2 B2 A2).GetBlue = a.GetBlue ∧
      (a.Convert R2 G2 B2 A2).GetAlpha = a.GetAlpha) ∧
    ((a.Convert R2 G2 B2 A2).data R2 = a.data R ∧
      (a.Convert R2 G2 B2 A2).data G2 = a.data G ∧
      (a.Convert R2 G2 B2 A2).data B2 = a.data B ∧
      (a.Convert R2 G2 B2 A2).data A2 = a.data A) ∧
    ((a.Convert R2 G2 B2 A2).Convert R G B A).data = a.data := by
  have h1 : (a.Convert R2 G2 B2 A2).GetRed = a.GetRed ∧
      (a.Convert R2 G2 B2 A2).GetGreen = a.GetGreen ∧
      (a.Convert R2 G2 B2 A2).GetBlue = a.GetBlue ∧
      (a.Convert R2 G2 B2 A2).GetAlpha = a.GetAlpha :=
    Color.set_getters hq Color.valueInit _ _ _ _
  have h2 : ((a.Convert R2 G2 B2 A2).Convert R G B A).GetRed = (a.Convert R2 G2 B2 A2).GetRed ∧
      ((a.Convert R2 G2 B2 A2).Convert R G B A).GetGreen = (a.Convert R2 G2 B2 A2).GetGreen ∧
      ((a.Convert R2 G2 B2 A2).Convert R G B A).GetBlue = (a.Convert R2 G2 B2 A2).GetBlue ∧
      ((a.Convert R2 G2 B2 A2).Convert R G B A).GetAlpha = (a.Convert R2 G2 B2 A2).GetAlpha :=
    Color.set_getters hp Color.valueInit _ _ _ _
  refine ⟨h1, h1, ?_⟩
  have h3 : (a.Convert R2 G2 B2 A2).Convert R G B A = a :=
    Color.eq_of_getters hp _ _ (h2.1.trans h1.1) (h2.2.1.trans h1.2.1)
      (h2.2.2.1.trans h1.2.2.1) (h2.2.2.2.trans h1.2.2.2)
  rw [h3]

/-- Witness of C20: an `RGBAColor` converted to `BGRAColor` and back. -/
theorem Color.Convert_roundtrip_witness :
    (Color.IsPermutation (0 : Fin 4) 1 2 3 ∧ Color.IsPermutation (2 : Fin 4) 1 0 3) ∧
    (((⟨![1, 2, 3, 4]⟩ : RGBAColor Real).Convert 2 1 0 3).Convert 0 1 2 3).data =
      (⟨![1, 2, 3, 4]⟩ : RGBAColor Real).data :=
  ⟨⟨by decide, by decide⟩,
    (Color.Convert_roundtrip (by decide) (by decide) (⟨![1, 2, 3, 4]⟩ : RGBAColor Real)).2.2⟩


/-! ## Further claims on the renderer -/

/-- C13: for `Width > 0`, `Height > 0`, both within the range of the `int` loop
counters, every palette and background colour and a buffer of length at least
`Width·Height`, `Render` with `maxIterations = 1` returns and stores the
background colour at every one of the `Width·Height` entries, without
anti-aliasing for every choice of the index parameters and, in exact arithmetic,
with anti-aliasing for every channel ordering (index parameters a permutation
of `{0,1,2,3}`): every evaluator call returns `1 = maxIterations`. -/
theorem Render_one_iteration {Width Height : Nat} {R G B A : Fin 4} {ColorsSize : Nat}
    (hn : 0 < ColorsSize) (self : Mandelbrot Width Height Real R G B A ColorsSize)
    (result : List (Color Real R G B A))
    (_hW : 0 < Width) (_hH : 0 < Height) (hWmax : Width ≤ INT_MAX) (hHmax : Height ≤ INT_MAX)
    (hlen : Width * Height ≤ result.length) :
    (∀ px py : Real, GetMandelbrotPointIterations px py Width Height 1 = 1) ∧
    (∃ out : List (Color Real R G B A),
      Render hn self result 1 false = some out ∧
      ∀ j, j < Width * Height → out[j]? = some self.backgroundColor) ∧
    (Color.IsPermutation R G B A → ∃ out : List (Color Real R G B A),
      Render hn self result 1 true = some out ∧
      ∀ j, j < Width * Height → out[j]? = some self.backgroundColor) := by
  have h3 : Width * Height = Height * Width := Nat.mul_comm Width Height
  have hlt : ∀ j, j < Width * Height → j / Width < Height := by
    intro j hj
    exact Nat.div_lt_of_lt_mul hj
  refine ⟨fun px py => evaluator_one px py Width Height,
    ⟨_, Render.plain_eq hn self result 1 hWmax hHmax, ?_⟩, fun hp =>
    ⟨_, Render.antiAliased_eq hn self result 1 hWmax hHmax, ?_⟩⟩
  · intro j hj
    rw [Render.filled_getElem?, if_pos (by omega), if_pos (by omega)]
    exact congrArg some (Render.specSample_one hn self _ _)
  · intro j hj
    have hxm : j % Width ≤ INT_MAX := (Nat.mod_lt j _hW).le.trans hWmax
    have hym : j / Width ≤ INT_MAX := (hlt j hj).le.trans hHmax
    rw [Render.filled_getElem?, if_pos (by omega), if_pos (by omega)]
    exact congrArg some (Render.antiAliasedValue_uniform hn hp self 1 _ _ hxm hym _
      (Render.specSample_one hn self _ _) (Render.specSample_one hn self _ _)
      (Render.specSample_one hn self _ _) (Render.specSample_one hn self _ _)
      (Render.specSample_one hn self _ _) (Render.specSample_one hn self _ _)
      (Render.specSample_one hn self _ _) (Render.specSample_one hn self _ _)
      (Render.specSample_one hn self _ _))

/-- Witness of C13: a `4 × 4` image of `RGBAColor` on a buffer of 16 entries,
anti-aliased, entry `5`. -/
theorem Render_one_iteration_witness :
    (0 < 1 ∧ 0 < 4 ∧ 4 ≤ INT_MAX ∧
      4 * 4 ≤ (List.replicate 16 (⟨![5, 5, 5, 5]⟩ : RGBAColor Real)).length ∧
      Color.IsPermutation (0 : Fin 4) 1 2 3 ∧ 5 < 4 * 4) ∧
    ∃ out : List (Color Real 0 1 2 3),
      Render (Nat.succ_pos 0)
        (⟨⟨![0, 0, 0, 1]⟩, ![⟨![1, 0, 0, 1]⟩]⟩ : Mandelbrot 4 4 Real 0 1 2 3 1)
        (List.replicate 16 ⟨![5, 5, 5, 5]⟩) 1 true = some out ∧
      out[5]? = some ⟨![0, 0, 0, 1]⟩ :=
  ⟨⟨by decide, by decide, by decide, by simp, by decide, by decide⟩,
    ((Render_one_iteration (Nat.succ_pos 0)
      (⟨⟨![0, 0, 0, 1]⟩, ![⟨![1, 0, 0, 1]⟩]⟩ : Mandelbrot 4 4 Real 0 1 2 3 1)
      (List.replicate 16 ⟨![5, 5, 5, 5]⟩) (by decide) (by decide) (by decide) (by decide)
      (by simp)).2.2 (by decide)).imp
      (fun _ h => ⟨h.1, h.2 5 (by decide)⟩)⟩

/-- A value that is half the centre plus a sixteenth of each of the other eight
lies between any two bounds of the nine. -/
theorem blend_between (lo hi a0 a1 a2 a3 a4 a5 a6 a7 a8 : Real)
    (h0 : lo ≤ a0 ∧ a0 ≤ hi) (h1 : lo ≤ a1 ∧ a1 ≤ hi) (h2 : lo ≤ a2 ∧ a2 ≤ hi)
    (h3 : lo ≤ a3 ∧ a3 ≤ hi) (h4 : lo ≤ a4 ∧ a4 ≤ hi) (h5 : lo ≤ a5 ∧ a5 ≤ hi)
    (h6 : lo ≤ a6 ∧ a6 ≤ hi) (h7 : lo ≤ a7 ∧ a7 ≤ hi) (h8 : lo ≤ a8 ∧ a8 ≤ hi) :
    lo ≤ a0 * 0.5 + (a1 + a2 + a3 + a4 + a5 + a6 + a7 + a8) * 0.125 * 0.5 ∧
    a0 * 0.5 + (a1 + a2 + a3 + a4 + a5 + a6 + a7 + a8) * 0.125 * 0.5 ≤ hi := by
  constructor <;> norm_num <;> linarith [h0.1, h0.2, h1.1, h1.2, h2.1, h2.2, h3.1, h3.2,
    h4.1, h4.2, h5.1, h5.2, h6.1, h6.2, h7.1, h7.2, h8.1, h8.2]

/-- A value that is half the centre plus a sixteenth of each of the other eight
lies between the least and the greatest of the nine. -/
theorem blend_min_max (a0 a1 a2 a3 a4 a5 a6 a7 a8 : Real) :
    min a0 (min a1 (min a2 (min a3 (min a4 (min a5 (min a6 (min a7 a8))))))) ≤
      a0 * 0.5 + (a1 + a2 + a3 + a4 + a5 + a6 + a7 + a8) * 0.125 * 0.5 ∧
    a0 * 0.5 + (a1 + a2 + a3 + a4 + a5 + a6 + a7 + a8) * 0.125 * 0.5 ≤
      max a0 (max a1 (max a2 (max a3 (max a4 (max a5 (max a6 (max a7 a8))))))) := by
  have r : ∀ {a m b : Real}, m ≤ b → min a m ≤ b := fun h => min_le_of_right_le h
  have s : ∀ {a m b : Real}, b ≤ m → b ≤ max a m := fun h => le_max_of_le_right h
  exact blend_between _ _ a0 a1 a2 a3 a4 a5 a6 a7 a8
    ⟨min_le_left _ _,
      le_max_left _ _⟩
    ⟨r (min_le_left _ _),
      s (le_max_left _ _)⟩
    ⟨r (r (min_le_left _ _)),
      s (s (le_max_left _ _))⟩
    ⟨r (r (r (min_le_left _ _))),
      s (s (s (le_max_left _ _)))⟩
    ⟨r (r (r (r (min_le_left _ _)))),
      s (s (s (s (le_max_left _ _))))⟩
    ⟨r (r (r (r (r (min_le_left _ _))))),
      s (s (s (s (s (le_max_left _ _)))))⟩
    ⟨r (r (r (r (r (r (min_le_left _ _)))))),
      s (s (s (s (s (s (le_max_left _ _))))))⟩
    ⟨r (r (r (r (r (r (r (min_le_left _ _))))))),
      s (s (s (s (s (s (s (le_max_left _ _)))))))⟩
    ⟨r (r (r (r (r (r (r (min_le_right _ _))))))),
      s (s (s (s (s (s (s (le_max_right _ _)))))))⟩

/-- The blend of the nine samples lies between the least and the greatest of
them, position by position. -/
theorem Render.specBlend_between {Width Height : Nat} {R G B A : Fin 4} {ColorsSize : Nat}
    (hn : 0 < ColorsSize) (self : Mandelbrot Width Height Real R G B A ColorsSize)
    (maxIterations : Nat) (x y : Nat) (i : Fin 4) :
    Render.specSampleMin hn self maxIterations x y i ≤
      Render.specBlend hn self maxIterations x y i ∧
    Render.specBlend hn self maxIterations x y i ≤
      Render.specSampleMax hn self maxIterations x y i := by
  unfold Render.specBlend Render.specSampleMin Render.specSampleMax
  exact blend_min_max _ _ _ _ _ _ _ _ _

/-- Every sample has its values in `[0, 1]` when the palette and the background
colour have. -/
theorem Render.specSample_unit {Width Height : Nat} {R G B A : Fin 4} {ColorsSize : Nat}
    (hn : 0 < ColorsSize) (self : Mandelbrot Width Height Real R G B A ColorsSize)
    (maxIterations : Nat)
    (hbg : ∀ i, 0 ≤ self.backgroundColor.data i ∧ self.backgroundColor.data i ≤ 1)
    (hpal : ∀ k i, 0 ≤ (self.colors k).data i ∧ (self.colors k).data i ≤ 1)
    (px py : Real) (i : Fin 4) :
    0 ≤ (Render.specSample hn self maxIterations px py).data i ∧
      (Render.specSample hn self maxIterations px py).data i ≤ 1 := by
  unfold Render.specSample Render.GetColor
  split
  · exact hpal _ i
  · exact hbg i

/-- C19: for every channel ordering (index parameters a permutation of
`{0,1,2,3}`) and `Width`, `Height` within the range of the `int` loop counters,
for every anti-aliased pixel and every channel, in exact arithmetic the stored
value lies between the minimum and the maximum of that channel over the 9
sample colours; hence, if every palette and background channel lies in `[0,1]`,
every channel of every rendered pixel lies in `[0,1]`, although the sum of the 8
surrounding samples reaches `8` when each of them has `1`. -/
theorem Render_convex {Width Height : Nat} {R G B A : Fin 4} {ColorsSize : Nat}
    (hn : 0 < ColorsSize) (hp : Color.IsPermutation R G B A)
    (self : Mandelbrot Width Height Real R G B A ColorsSize)
    (result : List (Color Real R G B A)) (maxIterations : Nat)
    (hWmax : Width ≤ INT_MAX) (hHmax : Height ≤ INT_MAX)
    (hlen : Width * Height ≤ result.length) (x y : Nat) (hx : x < Width) (hy : y < Height) :
    (∃ (out : List (Color Real R G B A)) (stored : Color Real R G B A),
      Render hn self result maxIterations true = some out ∧
      out[x + y * Width]? = some stored ∧
      (∀ i : Fin 4,
        Render.specSampleMin hn self maxIterations x y i ≤ stored.data i ∧
        stored.data i ≤ Render.specSampleMax hn self maxIterations x y i) ∧
      ((∀ i, 0 ≤ self.backgroundColor.data i ∧ self.backgroundColor.data i ≤ 1) →
        (∀ k i, 0 ≤ (self.colors k).data i ∧ (self.colors k).data i ≤ 1) →
        ∀ i : Fin 4, 0 ≤ stored.data i ∧ stored.data i ≤ 1)) ∧
    (∃ (out : List (Color Real R G B A)) (plain : Color Real R G B A),
      Render hn self result maxIterations false = some out ∧
      out[x + y * Width]? = some plain ∧
      ((∀ i, 0 ≤ self.backgroundColor.data i ∧ self.backgroundColor.data i ≤ 1) →
        (∀ k i, 0 ≤ (self.colors k).data i ∧ (self.colors k).data i ≤ 1) →
        ∀ i : Fin 4, 0 ≤ plain.data i ∧ plain.data i ≤ 1)) ∧
    (∀ (c : Color Real R G B A) (i : Fin 4), c.data i = 1 →
      (c + c + c + c + c + c + c + c).data i = 8) := by
  have hx2 : x ≤ INT_MAX := by omega
  have hy2 : y ≤ INT_MAX := by omega
  refine ⟨⟨_, _, Render.antiAliased_eq hn self result maxIterations hWmax hHmax,
      Render.entry_antiAliased hn self result maxIterations hlen x y hx hy, ?_, ?_⟩,
    ⟨_, _, Render.plain_eq hn self result maxIterations hWmax hHmax,
      Render.entry_plain hn self result maxIterations hlen x y hx hy, ?_⟩, ?_⟩
  · intro i
    rw [Render.antiAliasedValue_data hn hp self maxIterations x y hx2 hy2]
    exact Render.specBlend_between hn self maxIterations x y i
  · intro hbg hpal i
    rw [Render.antiAliasedValue_data hn hp self maxIterations x y hx2 hy2]
    unfold Render.specBlend
    exact blend_between 0 1 _ _ _ _ _ _ _ _ _
      (Render.specSample_unit hn self maxIterations hbg hpal _ _ i)
      (Render.specSample_unit hn self maxIterations hbg hpal _ _ i)
      (Render.specSample_unit hn self maxIterations hbg hpal _ _ i)
      (Render.specSample_unit hn self maxIterations hbg hpal _ _ i)
      (Render.specSample_unit hn self maxIterations hbg hpal _ _ i)
      (Render.specSample_unit hn self maxIterations hbg hpal _ _ i)
      (Render.specSample_unit hn self maxIterations hbg hpal _ _ i)
      (Render.specSample_unit hn self maxIterations hbg hpal _ _ i)
      (Render.specSample_unit hn self maxIterations hbg hpal _ _ i)
  · intro hbg hpal i
    exact Render.specSample_unit hn self maxIterations hbg hpal _ _ i
  · intro c i hc
    simp only [Color.add_data hp, hc]
    norm_num

/-- Witness of C19: a `1 × 1` image of `RGBAColor`, `maxIterations = 128`. -/
theorem Render_convex_witness :
    (0 < 1 ∧ Color.IsPermutation (0 : Fin 4) 1 2 3 ∧ 1 ≤ INT_MAX ∧ 1 * 1 ≤ 1) ∧
    ∃ (out : List (Color Real 0 1 2 3)) (stored : Color Real 0 1 2 3),
      Render (Nat.succ_pos 0)
        (⟨⟨![0, 0, 0, 1]⟩, ![⟨![1, 0, 0, 1]⟩]⟩ : Mandelbrot 1 1 Real 0 1 2 3 1)
        [⟨![5, 5, 5, 5]⟩] 128 true = some out ∧
      out[0 + 0 * 1]? = some stored ∧
      ∀ i : Fin 4,
        Render.specSampleMin (Nat.succ_pos 0)
          (⟨⟨![0, 0, 0, 1]⟩, ![⟨![1, 0, 0, 1]⟩]⟩ : Mandelbrot 1 1 Real 0 1 2 3 1) 128 0 0 i ≤
          stored.data i ∧
        stored.data i ≤ Render.specSampleMax (Nat.succ_pos 0)
          (⟨⟨![0, 0, 0, 1]⟩, ![⟨![1, 0, 0, 1]⟩]⟩ : Mandelbrot 1 1 Real 0 1 2 3 1) 128 0 0 i :=
  ⟨⟨by decide, by decide, by decide, by decide⟩,
    (Render_convex (Nat.succ_pos 0) (by decide)
      (⟨⟨![0, 0, 0, 1]⟩, ![⟨![1, 0, 0, 1]⟩]⟩ : Mandelbrot 1 1 Real 0 1 2 3 1)
      [⟨![5, 5, 5, 5]⟩] 128 (by decide) (by decide) (by decide) 0 0 (by decide)
      (by decide)).1.imp
      (fun _ h => h.imp (fun _ h => ⟨h.1, h.2.1, h.2.2.1⟩))⟩

/-! ## main.cpp: `ConvertImage` -/

/-- The standard clamp to `[0, 1]` is `min(max(v, 0), 1)`. -/
theorem clamp_unit (v : Real) : clamp v 0 1 = min (max v 0) 1 := by
  unfold clamp
  by_cases h1 : v < 0
  · rw [if_pos h1, max_eq_right h1.le, min_eq_left (by norm_num)]
  · rw [if_neg h1, max_eq_left (not_lt.1 h1)]
    by_cases h2 : 1 < v
    · rw [if_pos h2, min_eq_right h2.le]
    · rw [if_neg h2, min_eq_left (not_lt.1 h2)]

/-- The value given to the 8-bit conversion lies in `[0, 255]`. -/
theorem clamp_scaled_range (v : Real) : 0 ≤ clamp v 0 1 * 255 ∧ clamp v 0 1 * 255 ≤ 255 := by
  rw [clamp_unit]
  have h1 : (0 : Real) ≤ min (max v 0) 1 := le_min (le_max_right _ _) (by norm_num)
  have h2 : min (max v 0) 1 ≤ (1 : Real) := min_le_right _ _
  constructor <;> nlinarith

/-- On `[0, 255]` the 8-bit conversion is the floor. -/
theorem castUInt8_floor (w : Real) (h0 : 0 ≤ w) (h1 : w ≤ 255) : castUInt8 w = ⌊w⌋₊ := by
  unfold castUInt8
  rw [if_pos h0, Int.floor_toNat]
  apply Nat.mod_eq_of_lt
  have : ⌊w⌋₊ ≤ 255 := by
    apply Nat.floor_le_of_le
    exact_mod_cast h1
  omega

/-- One channel of `ConvertImage`: the written byte is
`floor(min(max(v, 0), 1)·255)`. -/
theorem castUInt8_clamp (v : Real) : castUInt8 (clamp v 0 1 * 255) = specByte v := by
  rw [castUInt8_floor _ (clamp_scaled_range v).1 (clamp_scaled_range v).2, clamp_unit]
  rfl

/-- The byte of a channel: at most `255`, `0` for `v ≤ 0`, `255` for `v ≥ 1`. -/
theorem specByte_range (v : Real) :
    specByte v ≤ 255 ∧ (v ≤ 0 → specByte v = 0) ∧ (1 ≤ v → specByte v = 255) := by
  refine ⟨?_, ?_, ?_⟩
  · have h := (clamp_scaled_range v).2
    rw [clamp_unit] at h
    unfold specByte
    apply Nat.floor_le_of_le
    exact_mod_cast h
  · intro hv
    unfold specByte
    rw [max_eq_right hv, min_eq_left (by norm_num)]
    simp
  · intro hv
    unfold specByte
    rw [max_eq_left (le_trans (by norm_num) hv), min_eq_right hv]
    norm_num

/-- The loop of `ConvertImage` keeps the length of `result`. -/
theorem ConvertImage.loop_length (c0 : ByteColor) (input : List FloatColor) (n : Nat)
    (result : List ByteColor) :
    ((List.range n).foldl
      (ConvertImage.step c0 input)
      result).length = result.length := by
  induction n with
  | zero => rfl
  | succ n ih =>
    rw [List.range_succ, List.foldl_append]
    simp only [List.foldl_cons, List.foldl_nil, ConvertImage.step]
    split
    · rw [List.length_set]
      exact ih
    · exact ih

/-- The buffer `result` after `n` trips of the loop of `ConvertImage`. -/
theorem ConvertImage.loop_getElem? (c0 : ByteColor) (input : List FloatColor) (n : Nat)
    (result : List ByteColor) (hn : n ≤ input.length) (hlen : input.length ≤ result.length)
    (j : Nat) :
    ((List.range n).foldl
      (ConvertImage.step c0 input)
      result)[j]? =
      if j < n then (input[j]?).map (ConvertImage.pixel c0) else result[j]? := by
  induction n with
  | zero => simp
  | succ n ih =>
    have ih2 := ih (by omega)
    rw [List.range_succ, List.foldl_append]
    simp only [List.foldl_cons, List.foldl_nil]
    have hn2 : n < input.length := by omega
    have hget : input[n]? = some (input[n]) := List.getElem?_eq_getElem hn2
    simp only [ConvertImage.step, hget]
    rw [List.getElem?_set, ConvertImage.loop_length, ih2]
    by_cases hj : n = j
    · subst hj
      rw [if_pos rfl, if_pos (by omega), if_pos (by omega), hget]
      rfl
    · rw [if_neg hj]
      by_cases h1 : j < n
      · rw [if_pos h1, if_pos (by omega)]
      · rw [if_neg h1, if_neg (by omega)]

/-- C14: for every input buffer and every channel value `v` in it, in exact
arithmetic, `ConvertImage` writes at the same index and the same channel the
byte `floor(min(max(v, 0), 1)·255)`; the value given to the 8-bit conversion
lies in `[0, 255]`, `v ≤ 0` gives `0`, `v ≥ 1` gives `255`, and the output has
one entry per input entry. -/
theorem ConvertImage_bytes (c0 : ByteColor) (input : List FloatColor) (result : List ByteColor)
    (hlen : input.length ≤ result.length) :
    ((ConvertImage c0 input result).length = result.length ∧
      (result.length = input.length → (ConvertImage c0 input result).length = input.length)) ∧
    (∀ (i : Nat) (color : FloatColor), input[i]? = some color →
      ∃ c : ByteColor, (ConvertImage c0 input result)[i]? = some c ∧
        c.GetRed = specByte color.GetRed ∧ c.GetGreen = specByte color.GetGreen ∧
        c.GetBlue = specByte color.GetBlue ∧ c.GetAlpha = specByte color.GetAlpha) ∧
    (∀ j, input.length ≤ j → (ConvertImage c0 input result)[j]? = result[j]?) ∧
    (∀ v : Real, (0 ≤ clamp v 0 1 * 255 ∧ clamp v 0 1 * 255 ≤ 255) ∧
      castUInt8 (clamp v 0 1 * 255) = specByte v ∧ specByte v ≤ 255 ∧
      (v ≤ 0 → specByte v = 0) ∧ (1 ≤ v → specByte v = 255)) := by
  have hL : (ConvertImage c0 input result).length = result.length :=
    ConvertImage.loop_length c0 input input.length result
  refine ⟨⟨hL, fun h => hL.trans h⟩, ?_, ?_, ?_⟩
  · intro i color hi
    have hi2 : i < input.length := by
      by_contra hcon
      rw [List.getElem?_eq_none (by omega)] at hi
      exact absurd hi (by simp)
    refine ⟨ConvertImage.pixel c0 color, ?_, ?_⟩
    · unfold ConvertImage
      rw [ConvertImage.loop_getElem? c0 input input.length result (le_refl _) hlen i,
        if_pos hi2, hi]
      rfl
    · have h := Color.set_getters (by decide : Color.IsPermutation (0 : Fin 4) 1 2 3) c0
        (castUInt8 (clamp color.GetRed 0 1 * 255)) (castUInt8 (clamp color.GetGreen 0 1 * 255))
        (castUInt8 (clamp color.GetBlue 0 1 * 255)) (castUInt8 (clamp color.GetAlpha 0 1 * 255))
      simp only [castUInt8_clamp] at h
      simp only [ConvertImage.pixel, castUInt8_clamp]
      exact h
  · intro j hj
    unfold ConvertImage
    rw [ConvertImage.loop_getElem? c0 input input.length result (le_refl _) hlen j,
      if_neg (by omega)]
  · intro v
    exact ⟨clamp_scaled_range v, castUInt8_clamp v, specByte_range v⟩

/-- Witness of C14: two input colours with channels below `0`, inside `[0, 1]`
and above `1`. -/
theorem ConvertImage_bytes_witness :
    ([(⟨![-1, 1 / 2, 2, 1]⟩ : FloatColor), ⟨![0, 0, 0, 1]⟩].length ≤
      [(⟨![9, 9, 9, 9]⟩ : ByteColor), ⟨![9, 9, 9, 9]⟩].length) ∧
    (ConvertImage ⟨![7, 7, 7, 7]⟩ [(⟨![-1, 1 / 2, 2, 1]⟩ : FloatColor), ⟨![0, 0, 0, 1]⟩]
      [(⟨![9, 9, 9, 9]⟩ : ByteColor), ⟨![9, 9, 9, 9]⟩]).length = 2 :=
  ⟨by decide,
    (ConvertImage_bytes ⟨![7, 7, 7, 7]⟩ [(⟨![-1, 1 / 2, 2, 1]⟩ : FloatColor), ⟨![0, 0, 0, 1]⟩]
      [(⟨![9, 9, 9, 9]⟩ : ByteColor), ⟨![9, 9, 9, 9]⟩] (by decide)).1.1⟩


end ConstexprMandelbrot
